import Mathlib

/-
Verification of the auspice map helpers (src/components/map/mapHelpersLatLong.js)
and the v1-to-v2 schema migrator (the unnamed CommonJS module exporting
convertFromV1), via a shallow embedding in Lean.

Modelling conventions, used throughout:
- JavaScript numbers are modelled as exact rationals (no floating point is
  exercised near a rounding boundary by any statement below).
- JavaScript objects are modelled as insertion-ordered association lists
  from String keys to values; property update keeps the position of an
  existing key and appends a new key at the end, matching JS semantics.
- Fallible code (property access on nullish values, Object.entries of
  undefined, Array.prototype methods on non-arrays, RangeError in toFixed)
  is modelled in the Except monad.  JSErr.unmodeled marks inputs that are
  outside the modelled domain (the JS source would NOT necessarily throw
  there); JSErr.typeError and JSErr.rangeError mark places where the JS
  source itself throws.
- External collaborators that live outside this repository (the Leaflet
  projection, the d3 pie layout, the bezier generator, averageColorsDict)
  are passed in as opaque function parameters, collected in MapCollab.
-/

namespace Auspice

/-! ## JS value model -/

/-- Model of a JavaScript value: undefined, null, booleans, numbers (exact
rationals), strings, arrays, and insertion-ordered objects. -/
inductive JSVal where
  | undef : JSVal
  | null : JSVal
  | jbool : Bool → JSVal
  | jnum : ℚ → JSVal
  | jstr : String → JSVal
  | jarr : List JSVal → JSVal
  | jobj : List (String × JSVal) → JSVal

/-- JS truthiness.  The model has no NaN; jnum 0 and the empty string are
falsy, every array and object is truthy. -/
def JSVal.truthy : JSVal → Bool
  | .undef => false
  | .null => false
  | .jbool b => b
  | .jnum q => decide (q ≠ 0)
  | .jstr s => decide (s ≠ "")
  | .jarr _ => true
  | .jobj _ => true

def JSVal.isObj : JSVal → Bool
  | .jobj _ => true
  | _ => false

def JSVal.isStr : JSVal → Bool
  | .jstr _ => true
  | _ => false

def JSVal.isArr : JSVal → Bool
  | .jarr _ => true
  | _ => false

def JSVal.isUndef : JSVal → Bool
  | .undef => true
  | _ => false

def JSVal.isNullish : JSVal → Bool
  | .undef => true
  | .null => true
  | _ => false

/-! ## Association-list operations (JS object property semantics) -/

/-- Lookup in an insertion-ordered association list. -/
def assocGet {α : Type} (m : List (String × α)) (k : String) : Option α :=
  (m.find? (fun kv => kv.1 == k)).map Prod.snd

/-- Property write: update in place if the key exists, append otherwise. -/
def assocSet {α : Type} (m : List (String × α)) (k : String) (v : α) :
    List (String × α) :=
  if (m.find? (fun kv => kv.1 == k)).isSome then
    m.map (fun kv => if kv.1 == k then (k, v) else kv)
  else m ++ [(k, v)]

/-- Property delete. -/
def assocDel {α : Type} (m : List (String × α)) (k : String) :
    List (String × α) :=
  m.filter (fun kv => kv.1 != k)

/-- Update the value at a key if present, leave the list unchanged otherwise. -/
def assocUpdate {α : Type} (m : List (String × α)) (k : String) (f : α → α) :
    List (String × α) :=
  m.map (fun kv => if kv.1 == k then (kv.1, f kv.2) else kv)

/-- Object.keys. -/
def assocKeys {α : Type} (m : List (String × α)) : List String :=
  m.map Prod.fst

/-- Property read on an object property list: absent keys read as undefined. -/
def getp (props : List (String × JSVal)) (k : String) : JSVal :=
  (assocGet props k).getD (.undef)

/-- The shared counter bump used by the JS source for demeToDemeCounts and
per-deme color counts: if the key is present increment it, otherwise set 1.
Returns the new map and the stored value. -/
def bumpCount (m : List (String × ℕ)) (k : String) : List (String × ℕ) × ℕ :=
  match assocGet m k with
  | some n => (assocSet m k (n + 1), n + 1)
  | none => (m ++ [(k, 1)], 1)

/-! ## Errors -/

/-- Errors of the embedding.  typeError and rangeError correspond to real JS
exceptions; unmodeled marks the boundary of the modelled input domain. -/
inductive JSErr where
  | typeError : JSErr
  | rangeError : JSErr
  | unmodeled : JSErr

/-- JS property access as an operation that can throw: reading a property of
undefined or null raises TypeError; objects use the property list; other
primitives yield undefined (string/array length reads are outside the
modelled domain). -/
def jsGet : JSVal → String → Except JSErr JSVal
  | .undef, _ => .error .typeError
  | .null, _ => .error .typeError
  | .jobj props, k => .ok (getp props k)
  | .jstr _, k => if k == "length" then .error .unmodeled else .ok .undef
  | .jarr _, k => if k == "length" then .error .unmodeled else .ok .undef
  | _, _ => .ok (.undef)

/-! ## prettyString (stringHelpers copy embedded in the migrator module) -/

/-- Options record of prettyString; the JS defaults are
multiplier=false, trim=0, camelCase=true, removeComma=false, stripEtAl=false. -/
structure POpts where
  multiplier : Bool
  trim : ℕ
  camelCase : Bool
  removeComma : Bool
  stripEtAl : Bool

def defaultOpts : POpts := ⟨false, 0, true, false, false⟩

/-- Word character of the JS regex class backslash-w: letters, digits, underscore. -/
def isWordChar (c : Char) : Bool :=
  (c ≥ 'a' && c ≤ 'z') || (c ≥ 'A' && c ≤ 'Z') || (c ≥ '0' && c ≤ '9') || c == '_'

/-- Whitespace for the JS regex class backslash-s (the characters that can occur
in the strings this code handles). -/
def isSpaceJS (c : Char) : Bool :=
  c == ' ' || c == '\t' || c == '\n' || c == '\r'

/-- Global replacement for the regex wSTAR pattern of prettyString, written as
a left-to-right scan: outside a match, a word character starts a match and is
upper-cased; inside a match, every non-space character continues it; a space
(or, outside a match, any non-word character) leaves the scanner outside. -/
def camelWords (inWord : Bool) : List Char → List Char
  | [] => []
  | c :: rest =>
    if inWord && !isSpaceJS c then c :: camelWords true rest
    else if !inWord && isWordChar c then c.toUpper :: camelWords true rest
    else c :: camelWords false rest

/-- String.prototype.replace with a plain (non-regex, non-global) pattern:
replaces only the first occurrence. -/
def replaceFirstCh (pat rep : List Char) : List Char → List Char
  | [] => []
  | c :: rest =>
    if pat.isPrefixOf (c :: rest) then rep ++ (c :: rest).drop pat.length
    else c :: replaceFirstCh pat rep rest

def replaceFirst (s pat rep : String) : String :=
  String.mk (replaceFirstCh pat.data rep.data s.data)

/-- ASCII lower-casing (the inputs this code handles are ASCII). -/
def jsLower (s : String) : String := String.mk (s.data.map Char.toLower)

def jsUpper (s : String) : String := String.mk (s.data.map Char.toUpper)

def strLen (s : String) : ℕ := s.data.length

def strTake (s : String) (n : ℕ) : String := String.mk (s.data.take n)

/-- Decimal digit count of a natural number (length of its base 10 print). -/
def digitsLen (n : ℕ) : ℕ := (Nat.toDigits 10 n).length

/-- Math.ceil of log10, on exact rationals, for positive inputs (the source
always applies it to absVal + 1e-10 which is positive); 0 elsewhere.  For a
rational q with 1 ≤ q the least k with 10 pow k at least q is the digit count
of ceil q minus one; for 0 < q < 1 it is minus the floor log of the inverse. -/
def ceilLog10 (q : ℚ) : ℤ :=
  if 1 ≤ q then
    (if ⌈q⌉.toNat ≤ 1 then 0 else (digitsLen (⌈q⌉.toNat - 1) : ℤ))
  else if 0 < q then
    -((digitsLen ⌊q⁻¹⌋.toNat - 1 : ℕ) : ℤ)
  else 0

/-- Left-pad a digit string with zeros to the requested width. -/
def padZeros (d : ℕ) (s : String) : String :=
  String.mk (List.replicate (d - s.length) '0') ++ s

/-- Number.prototype.toFixed on exact rationals: round half towards positive
numerator magnitude and print with exactly d decimal places. -/
def toFixedStr (q : ℚ) (d : ℕ) : String :=
  let n : ℤ := ⌊q * (10 : ℚ) ^ d + 1 / 2⌋
  let m : ℕ := n.natAbs
  let ip : ℕ := m / 10 ^ d
  let fp : ℕ := m % 10 ^ d
  let sign : String := if n < 0 then "-" else ""
  if d = 0 then sign ++ toString ip
  else sign ++ toString ip ++ "." ++ padZeros d (toString fp)

/-- Number branch of prettyString: decimal places chosen as
5 - ceil(log10(absVal + 1e-10)); a negative count raises RangeError in JS
(toFixed rejects it). -/
def prettyNum (q : ℚ) (mult : Bool) : Except JSErr String :=
  let magnitude : ℤ := ceilLog10 (|q| + 1 / 10000000000)
  let d : ℤ := 5 - magnitude
  if d < 0 then .error .rangeError
  else .ok (if mult then toFixedStr q d.toNat ++ "×" else toFixedStr q d.toNat)

/-- String branch of prettyString, after the falsy guard. -/
def prettyStr (s0 : String) (o : POpts) : String :=
  let s1 := if o.trim > 0 && strLen s0 > o.trim then strTake s0 o.trim ++ "..." else s0
  if ["usvi", "usa", "uk"].contains (jsLower s1) then jsUpper s1
  else
    let s2 := String.mk ((s1.data).map (fun c => if c == '_' then ' ' else c))
    let s3 := if o.camelCase then String.mk (camelWords false s2.data) else s2
    let s4 := if o.removeComma then String.mk (s3.data.filter (fun c => c != ',')) else s3
    if o.stripEtAl then
      replaceFirst (replaceFirst (replaceFirst (replaceFirst s4 "et al." "") "Et Al." "") "et al" "") "Et Al" ""
    else s4

/-- prettyString from the migrator module.  Nullish and falsy non-zero inputs
return the empty string; strings are prettified; numbers go through the
significant-digit fixed-point formatting; other values are returned as is. -/
def prettyString (x : JSVal) (o : POpts) : Except JSErr JSVal :=
  if !x.truthy && !(match x with | .jnum q => decide (q = 0) | _ => false) then
    .ok (.jstr "")
  else
    match x with
    | .jstr s => .ok (.jstr (prettyStr s o))
    | .jnum q => do
        let s ← prettyNum q o.multiplier
        .ok (.jstr s)
    | v => .ok v

/-! ## Map helpers: data model (mapHelpersLatLong.js)

A tree node as seen by the map helpers.  getTraitFromNode(node, geoResolution)
is an external collaborator (util/treeMiscHelpers); since geoResolution is
fixed per call we model the resolved trait as the location field (an absent
or undefined trait is none).  num_date.value is modelled as a plain rational
(the code reads it only after a successful pair construction).  children is
none when the node has no children property; a present empty array is truthy
in JS and is therefore kept distinct from none. -/

inductive MapNode where
  | mk (arrayIdx : ℕ) (location : Option String) (numDateVal : ℚ)
      (children : Option (List MapNode))

def MapNode.arrayIdx : MapNode → ℕ
  | .mk i _ _ _ => i

def MapNode.location : MapNode → Option String
  | .mk _ l _ _ => l

def MapNode.numDateVal : MapNode → ℚ
  | .mk _ _ d _ => d

def MapNode.children : MapNode → Option (List MapNode)
  | .mk _ _ _ c => c

/-- JS truthiness of a resolved location value (the empty string is falsy). -/
def truthyLoc : Option String → Bool
  | none => false
  | some s => decide (s ≠ "")

/-- A projected layer point. -/
structure MapPoint where
  x : ℚ
  y : ℚ

/-- External collaborators of the map helpers, all assumed pure:
proj models map.latLngToLayerPoint(lat, long); bez models
bezier(origin, destination, extend); pie models the d3 pie layout (returning
a start and end angle per input count, in order); avgColor models
averageColorsDict on a color-to-count mapping. -/
structure MapCollab where
  proj : ℚ → ℚ → MapPoint
  bez : MapPoint → MapPoint → ℕ → List MapPoint
  pie : List ℕ → List (ℚ × ℚ)
  avgColor : List (String × ℕ) → String

/-- The NODE_NOT_VISIBLE sentinel from util/globals (not under src/).
Modelled from the spec: only the comparison visibility[i] !== NODE_NOT_VISIBLE
matters, so the concrete value is arbitrary. -/
def NODE_NOT_VISIBLE : ℕ := 0

/-- visibility[idx] !== NODE_NOT_VISIBLE; an out-of-range index reads as
undefined in JS, which also differs from the sentinel. -/
def visAt (visibility : List ℕ) (idx : ℕ) : Bool :=
  !(visibility.get? idx == some NODE_NOT_VISIBLE)

/-- nodeColors[idx], undefined when out of range. -/
def colorAt (nodeColors : List String) (idx : ℕ) : Option String :=
  nodeColors.get? idx

/-- The geographic lookup table metadata.geographicInfo[geoResolution], for
the fixed geoResolution of the call: location name to (latitude, longitude).
A missing geoResolution level and a missing location name both produce a
failed lookup (in the source both end in the same catch block). -/
def geoLookup (geo : List (String × (ℚ × ℚ))) : Option String → Option (ℚ × ℚ)
  | none => none
  | some s => assocGet geo s

def westBound : ℚ := -360
def eastBound : ℚ := 360

/-! ## Map helpers: transmissions -/

/-- One transmission event record (a parent-to-child edge drawn on the map). -/
structure TransmissionRec where
  id : String
  originNode : MapNode
  destinationNode : MapNode
  bezierCurve : List MapPoint
  bezierDates : List ℚ
  originName : Option String
  destinationName : Option String
  originCoords : MapPoint
  destinationCoords : MapPoint
  originLatitude : ℚ
  destinationLatitude : ℚ
  originLongitude : ℚ
  destinationLongitude : ℚ
  originNumDate : ℚ
  destinationNumDate : ℚ
  color : Option String
  visible : String
  extend : ℕ

/-- maybeGetTransmissionPair for defined endpoints: the legality condition of
the source is (longOrig > westBound OR longDest > westBound) AND
(longOrig < eastBound OR longDest < eastBound) AND abs difference < 180.
When either endpoint is undefined the JS arithmetic produces NaN, every
comparison is false and the pair is null; the caller handles that case by
matching on the lookups before calling this. -/
def maybeGetTransmissionPair (env : MapCollab) (latOrig longOrig latDest longDest : ℚ) :
    Option (MapPoint × MapPoint) :=
  if (longOrig > westBound ∨ longDest > westBound) ∧
      (longOrig < eastBound ∨ longDest < eastBound) ∧
      |longOrig - longDest| < 180 then
    some (env.proj latOrig longOrig, env.proj latDest longDest)
  else none

/-- d3 interpolateNumber. -/
def interpolateNumber (a b t : ℚ) : ℚ := a + (b - a) * t

/-- The record built by maybeConstructTransmissionEvent once both lookups
succeeded; returns none when the pair is not legal.  The Bdates division by
(length - 1) is exact rational division (a one-point curve would produce NaN
dates in JS; the model returns the start date there, no claim touches it). -/
def mkEventOpt (env : MapCollab) (node child : MapNode) (nodeColors : List String)
    (visibility : List ℕ) (offsetOrig offsetDest : ℚ) (extend : ℕ)
    (orig dest : Option (ℚ × ℚ)) : Option TransmissionRec :=
  match orig, dest with
  | some latLongO, some latLongD =>
    match maybeGetTransmissionPair env latLongO.1 (latLongO.2 + offsetOrig)
        latLongD.1 (latLongD.2 + offsetDest) with
    | some pair =>
      let curve := env.bez pair.1 pair.2 extend
      let dates := (List.range curve.length).map
        (fun i => interpolateNumber node.numDateVal child.numDateVal
          ((i : ℚ) / ((curve.length : ℚ) - 1)))
      some
        ⟨toString node.arrayIdx ++ "-" ++ toString child.arrayIdx,
         node, child, curve, dates,
         node.location, child.location,
         pair.1, pair.2,
         latLongO.1, latLongD.1,
         latLongO.2 + offsetOrig, latLongD.2 + offsetDest,
         node.numDateVal, child.numDateVal,
         colorAt nodeColors node.arrayIdx,
         (if visAt visibility child.arrayIdx then "visible" else "hidden"),
         extend⟩
    | none => none
  | _, _ => none

/-- Insert into the demesMissingLatLongs set (JS Set.add: first-insertion
order, no duplicates). -/
def insertMissing (s : List (Option String)) (x : Option String) :
    List (Option String) :=
  if s.contains x then s else s ++ [x]

/-- maybeConstructTransmissionEvent: resolve both endpoints in the geographic
table (a failed lookup records the location in the missing set, as the catch
blocks do), then build the event if the offset pair is legal. -/
def maybeConstructTransmissionEvent (env : MapCollab)
    (geo : List (String × (ℚ × ℚ))) (node child : MapNode)
    (nodeColors : List String) (visibility : List ℕ)
    (offsetOrig offsetDest : ℚ) (missing : List (Option String)) (extend : ℕ) :
    Option TransmissionRec × List (Option String) :=
  let orig := geoLookup geo node.location
  let dest := geoLookup geo child.location
  let missing1 := if orig.isNone then insertMissing missing node.location else missing
  let missing2 := if dest.isNone then insertMissing missing1 child.location else missing1
  (mkEventOpt env node child nodeColors visibility offsetOrig offsetDest extend orig dest,
   missing2)

/-- lodash minBy: the first element attaining the minimal value. -/
def jsMinBy {α : Type} (f : α → ℚ) : List α → Option α
  | [] => none
  | x :: xs => some (xs.foldl (fun best y => if f y < f best then y else best) x)

/-- The on-screen horizontal separation minimised by the closest-event choice. -/
def dxAbs (t : TransmissionRec) : ℚ := |t.destinationCoords.x - t.originCoords.x|

/-- maybeGetClosestTransmissionEvent: try the three destination offsets,
collect the candidates (threading the missing set), return the first
candidate with minimal horizontal separation, or none. -/
def maybeGetClosestTransmissionEvent (env : MapCollab)
    (geo : List (String × (ℚ × ℚ))) (node child : MapNode)
    (nodeColors : List String) (visibility : List ℕ) (offsetOrig : ℚ)
    (missing : List (Option String)) (extend : ℕ) :
    Option TransmissionRec × List (Option String) :=
  let res := ([-360, 0, 360] : List ℚ).foldl
    (fun (acc : List TransmissionRec × List (Option String)) offsetDest =>
      let r := maybeConstructTransmissionEvent env geo node child nodeColors
        visibility offsetOrig offsetDest acc.2 extend
      (match r.1 with
       | some t => acc.1 ++ [t]
       | none => acc.1, r.2))
    ([], missing)
  (jsMinBy dxAbs res.1, res.2)

/-- The comma-joined key under which demeToDemeCounts stores an ordered
location pair: in JS the array [nodeDeme, childDeme] is coerced to the
property key nodeDeme ++ "," ++ childDeme. -/
def demeKey (a b : String) : String := a ++ "," ++ b

/-- The guard of the transmission loop: both resolved locations truthy and
different. -/
def guardEdge (n c : MapNode) : Bool :=
  match n.location, c.location with
  | some a, some b => a ≠ "" && b ≠ "" && a != b
  | _, _ => false

def locStr : Option String → String
  | some s => s
  | none => ""

def edgeKey (e : MapNode × MapNode) : String :=
  demeKey (locStr e.1.location) (locStr e.2.location)

def edgePair (e : MapNode × MapNode) : Option String × Option String :=
  (e.1.location, e.2.location)

def edgeId (e : MapNode × MapNode) : String :=
  toString e.1.arrayIdx ++ "-" ++ toString e.2.arrayIdx

/-- Accumulator of the setupTransmissionData loop. -/
structure TransState where
  counts : List (String × ℕ)
  missing : List (Option String)
  data : List TransmissionRec

def offsetsOf (triplicate : Bool) : List ℚ :=
  if triplicate then [-360, 0, 360] else [0]

/-- The loop body of setupTransmissionData for one guarded parent-child edge:
bump the comma-joined pair counter to obtain extend, then push the closest
event of every origin offset (threading the missing set). -/
def edgeStep (env : MapCollab) (geo : List (String × (ℚ × ℚ)))
    (nodeColors : List String) (visibility : List ℕ) (offsets : List ℚ)
    (st : TransState) (e : MapNode × MapNode) : TransState :=
  let bc := bumpCount st.counts (edgeKey e)
  let r := offsets.foldl
    (fun (acc : List TransmissionRec × List (Option String)) offsetOrig =>
      let c := maybeGetClosestTransmissionEvent env geo e.1 e.2 nodeColors
        visibility offsetOrig acc.2 bc.2
      (match c.1 with
       | some t => acc.1 ++ [t]
       | none => acc.1, c.2))
    ([], st.missing)
  ⟨bc.1, r.2, st.data ++ r.1⟩

/-- Per-child body of the node loop (the guard is exactly the source
condition nodeDeme truthy, childDeme truthy, nodeDeme !== childDeme). -/
def processChild (env : MapCollab) (geo : List (String × (ℚ × ℚ)))
    (nodeColors : List String) (visibility : List ℕ) (offsets : List ℚ)
    (st : TransState) (n c : MapNode) : TransState :=
  if guardEdge n c then edgeStep env geo nodeColors visibility offsets st (n, c)
  else st

/-- transmissionIndices: map each event id to the list of its positions. -/
def buildIndices (data : List TransmissionRec) : List (String × List ℕ) :=
  data.enum.foldl
    (fun m p =>
      match assocGet m p.2.id with
      | none => m ++ [(p.2.id, [p.1])]
      | some l => assocSet m p.2.id (l ++ [p.1]))
    []

structure SetupTransResult where
  transmissionData : List TransmissionRec
  transmissionIndices : List (String × List ℕ)
  demesMissingLatLongs : List (Option String)

/-- setupTransmissionData from mapHelpersLatLong.js. -/
def setupTransmissionData (env : MapCollab) (nodes : List MapNode)
    (visibility : List ℕ) (nodeColors : List String) (triplicate : Bool)
    (geo : List (String × (ℚ × ℚ))) : SetupTransResult :=
  let offsets := offsetsOf triplicate
  let st := nodes.foldl
    (fun st n =>
      match n.children with
      | some cs => cs.foldl
          (fun st c => processChild env geo nodeColors visibility offsets st n c) st
      | none => st)
    ⟨[], [], []⟩
  ⟨st.data, buildIndices st.data, st.missing⟩

/-! ## Map helpers: demes -/

def MapNode.isTip (n : MapNode) : Bool := n.children.isNone

/-- The color key under which a tip is counted: nodeColors[i], with an
out-of-range read coerced to the property key "undefined". -/
def colorKeyAt (nodeColors : List String) (i : ℕ) : String :=
  (nodeColors.get? i).getD "undefined"

/-- getDemeColors: first pass creates one empty bucket per truthy tip
location (first-seen order); second pass counts, per bucket, the colors of
the visible tips (nodes are indexed by position in the nodes array here). -/
def getDemeColors (nodes : List MapNode) (visibility : List ℕ)
    (nodeColors : List String) : List (String × List (String × ℕ)) :=
  let demeMap := nodes.foldl
    (fun m n =>
      if n.isTip then
        match n.location with
        | some loc =>
          if loc ≠ "" then
            (match assocGet m loc with
             | none => m ++ [(loc, [])]
             | some _ => m)
          else m
        | none => m
      else m)
    []
  nodes.enum.foldl
    (fun m p =>
      if p.2.isTip && visAt visibility p.1 then
        match p.2.location with
        | some loc =>
          if loc ≠ "" then
            assocUpdate m loc (fun cl => (bumpCount cl (colorKeyAt nodeColors p.1)).1)
          else m
        | none => m
      else m)
    demeMap

/-- One aggregated deme record. -/
structure DemeRec where
  name : String
  count : ℕ
  color : String
  latitude : ℚ
  longitude : ℚ
  coords : MapPoint

/-- One pie sector record (count is the total count of the deme, as in the
source). -/
structure ArcRec where
  color : String
  count : ℕ
  latitude : ℚ
  longitude : ℚ
  coords : MapPoint
  startAngle : ℚ
  endAngle : ℚ

/-- The latitude, offset longitude and goodDeme flag of a bucket at an
offset: a missing geographic entry leaves lat and long at 0 (no offset is
added) and clears goodDeme. -/
def demeGeoInfo (geo : List (String × (ℚ × ℚ))) (offset : ℚ) (key : String) :
    ℚ × ℚ × Bool :=
  match assocGet geo key with
  | some z => (z.1, z.2 + offset, true)
  | none => (0, 0, false)

/-- The arcs pushed for one bucket at one offset: one per color, zipped with
the pie layout angles, each carrying the total count and the bucket
coordinates. -/
def arcsFor (env : MapCollab) (geo : List (String × (ℚ × ℚ))) (offset : ℚ)
    (kv : String × List (String × ℕ)) : List ArcRec :=
  let info := demeGeoInfo geo offset kv.1
  let coords := env.proj info.1 info.2.1
  let total := (kv.2.map Prod.snd).sum
  (kv.2.zip (env.pie (kv.2.map Prod.snd))).map
    (fun ca => ⟨ca.1.1, total, info.1, info.2.1, coords, ca.2.1, ca.2.2⟩)

/-- Whether the deme record of a bucket is pushed at an offset:
long > westBound and long < eastBound and goodDeme. -/
def demeGood (geo : List (String × (ℚ × ℚ))) (offset : ℚ) (key : String) : Bool :=
  let info := demeGeoInfo geo offset key
  (decide (info.2.1 > westBound) && decide (info.2.1 < eastBound)) && info.2.2

/-- The deme record pushed for a bucket at an offset (when demeGood). -/
def demeRecFor (env : MapCollab) (geo : List (String × (ℚ × ℚ))) (offset : ℚ)
    (kv : String × List (String × ℕ)) : DemeRec :=
  let info := demeGeoInfo geo offset kv.1
  ⟨kv.1, (kv.2.map Prod.snd).sum, env.avgColor kv.2, info.1, info.2.1,
   env.proj info.1 info.2.1⟩

/-- demeIndices push: create the entry on first use, append afterwards. -/
def assocAppendIdx (m : List (String × List ℕ)) (k : String) (i : ℕ) :
    List (String × List ℕ) :=
  match assocGet m k with
  | none => m ++ [(k, [i])]
  | some l => assocSet m k (l ++ [i])

/-- Accumulator of the setupDemeData loop; index is the running position in
demeData (incremented only when a deme is pushed, as in the source). -/
structure DemeAcc where
  demeData : List DemeRec
  arcData : List ArcRec
  demeIndices : List (String × List ℕ)
  index : ℕ

/-- Loop body of setupDemeData for one bucket at one offset: arcs are pushed
unconditionally, the deme record and its index entry only when demeGood. -/
def demeStep (env : MapCollab) (geo : List (String × (ℚ × ℚ))) (offset : ℚ)
    (acc : DemeAcc) (kv : String × List (String × ℕ)) : DemeAcc :=
  let acc1 : DemeAcc := ⟨acc.demeData, acc.arcData ++ arcsFor env geo offset kv,
    acc.demeIndices, acc.index⟩
  if demeGood geo offset kv.1 then
    ⟨acc1.demeData ++ [demeRecFor env geo offset kv], acc1.arcData,
     assocAppendIdx acc1.demeIndices kv.1 acc1.index, acc1.index + 1⟩
  else acc1

structure SetupDemeResult where
  demeData : List DemeRec
  demeIndices : List (String × List ℕ)
  arcData : List ArcRec

/-- setupDemeData from mapHelpersLatLong.js. -/
def setupDemeData (env : MapCollab) (nodes : List MapNode)
    (visibility : List ℕ) (nodeColors : List String) (triplicate : Bool)
    (geo : List (String × (ℚ × ℚ))) : SetupDemeResult :=
  let demeMap := getDemeColors nodes visibility nodeColors
  let acc := (offsetsOf triplicate).foldl
    (fun a offset => demeMap.foldl (demeStep env geo offset) a)
    ⟨[], [], [], 0⟩
  ⟨acc.demeData, acc.demeIndices, acc.arcData⟩

/-! ## Map helpers: incremental color and visibility update -/

/-- Replace color and visible of the record at one position (positions come
from the transmissionIndices lookup; an out-of-range position would abort the
forEach inside the catch block in the source, and is a no-op here; it is
unreachable for indices built by setupTransmissionData). -/
def updateRecAt (td : List TransmissionRec) (i : ℕ) (col : Option String)
    (vis : String) : List TransmissionRec :=
  match td.get? i with
  | some t =>
    td.set i
      ⟨t.id, t.originNode, t.destinationNode, t.bezierCurve, t.bezierDates,
       t.originName, t.destinationName, t.originCoords, t.destinationCoords,
       t.originLatitude, t.destinationLatitude, t.originLongitude,
       t.destinationLongitude, t.originNumDate, t.destinationNumDate,
       col, vis, t.extend⟩
  | none => td

/-- updateTransmissionDataColAndVis from mapHelpersLatLong.js.  Note the
source resolves childLocation from node, not child (line 422); the model
reproduces that line verbatim. -/
def updateTransmissionDataColAndVis (transmissionData : List TransmissionRec)
    (transmissionIndices : List (String × List ℕ)) (nodes : List MapNode)
    (visibility : List ℕ) (nodeColors : List String) : List TransmissionRec :=
  nodes.foldl
    (fun td n =>
      match n.children with
      | some cs => cs.foldl
          (fun td child =>
            let nodeLocation := n.location
            let childLocation := n.location
            if truthyLoc nodeLocation && truthyLoc childLocation &&
                nodeLocation != childLocation then
              let id := toString n.arrayIdx ++ "-" ++ toString child.arrayIdx
              let col := colorAt nodeColors n.arrayIdx
              let vis : String :=
                if visAt visibility child.arrayIdx then "visible" else "hidden"
              match assocGet transmissionIndices id with
              | some idxs => idxs.foldl (fun td i => updateRecAt td i col vis) td
              | none => td
            else td)
          td
      | none => td)
    transmissionData

/-! ## Derived views of setupTransmissionData -/

/-- The candidate list of one origin offset: one candidate per destination
offset whose pair is legal (the missing set does not influence candidates). -/
def candList (env : MapCollab) (geo : List (String × (ℚ × ℚ)))
    (node child : MapNode) (nodeColors : List String) (visibility : List ℕ)
    (offsetOrig : ℚ) (extend : ℕ) : List TransmissionRec :=
  ([-360, 0, 360] : List ℚ).filterMap
    (fun offsetDest =>
      mkEventOpt env node child nodeColors visibility offsetOrig offsetDest extend
        (geoLookup geo node.location) (geoLookup geo child.location))

/-- The guarded parent-child edges of one parent node, in child order. -/
def childEdges (n : MapNode) : List (MapNode × MapNode) :=
  match n.children with
  | some cs => (cs.filter (fun c => guardEdge n c)).map (fun c => (n, c))
  | none => []

/-- All guarded edges of the node array, in traversal order. -/
def flatEdges (nodes : List MapNode) : List (MapNode × MapNode) :=
  nodes.flatMap childEdges

/-- The events pushed for one edge (given its extend): the closest candidate
of each origin offset, in offset order. -/
def edgeEvents (env : MapCollab) (geo : List (String × (ℚ × ℚ)))
    (nodeColors : List String) (visibility : List ℕ) (offsets : List ℚ)
    (e : MapNode × MapNode) (ext : ℕ) : List TransmissionRec :=
  offsets.filterMap
    (fun o => (maybeGetClosestTransmissionEvent env geo e.1 e.2 nodeColors
      visibility o [] ext).1)

/-- Edges paired with the extend value the comma-joined counter assigns them,
starting from a given counter state. -/
def extendsFrom (counts : List (String × ℕ)) :
    List (MapNode × MapNode) → List ((MapNode × MapNode) × ℕ)
  | [] => []
  | e :: es =>
    (e, (bumpCount counts (edgeKey e)).2) ::
      extendsFrom (bumpCount counts (edgeKey e)).1 es

/-- The count a key reads; absent keys read 0. -/
def lookupCount (m : List (String × ℕ)) (k : String) : ℕ :=
  (assocGet m k).getD 0

def samePairB (e1 e2 : MapNode × MapNode) : Bool :=
  edgePair e1 == edgePair e2

/-- No two edges with distinct ordered location pairs share a comma-joined
key (fails exactly in the collision cases of the implicit claim C9). -/
def keyInjOn (es : List (MapNode × MapNode)) : Prop :=
  ∀ e1 ∈ es, ∀ e2 ∈ es, edgeKey e1 = edgeKey e2 → edgePair e1 = edgePair e2

/-! ## Concrete inputs used by the closed counterexamples and witnesses -/

/-- A concrete collaborator bundle: the projection sends (lat, long) to
(x, y) = (long, lat), the bezier generator returns the two endpoints, the pie
layout gives every sector the angles (0, 1), the color average is a fixed
string. -/
def cEnv : MapCollab :=
  ⟨fun lat long => ⟨long, lat⟩, fun a b _ => [a, b],
   fun l => l.map (fun _ => (0, 1)), fun _ => "avg"⟩

def cTip : MapNode := .mk 1 (some "D") 2001 none

def cRoot : MapNode := .mk 0 (some "O") 2000 (some [cTip])

def cNodes : List MapNode := [cRoot, cTip]

/-- Geography for the C2 counterexample: origin at longitude 180 (near the
date line), destination at longitude 90. -/
def cGeo : List (String × (ℚ × ℚ)) := [("O", (0, 180)), ("D", (0, 90))]

/-- Geography for the C3 counterexample: origin at longitude 10, destination
at longitude -10; with origin offset +360 the chosen candidate sits at
longitude 370, outside the open band. -/
def c3Geo : List (String × (ℚ × ℚ)) := [("O", (0, 10)), ("D", (0, -10))]

/-- Nodes for the C9 collision example: an edge from location "a,b" to "c"
followed by an edge from "a" to "b,c"; the two ordered pairs are distinct but
share the comma-joined key "a,b,c". -/
def c9Nodes : List MapNode :=
  [.mk 0 (some "a,b") 0 (some [.mk 1 (some "c") 0 none]),
   .mk 1 (some "c") 0 none,
   .mk 2 (some "a") 0 (some [.mk 3 (some "b,c") 0 none]),
   .mk 3 (some "b,c") 0 none]

def c9Geo : List (String × (ℚ × ℚ)) :=
  [("a,b", (0, 0)), ("c", (0, 10)), ("a", (0, 20)), ("b,c", (0, 30))]

/-- Nodes for the C7 counterexample: an edge from "x,x" to "x" followed by an
edge from "x" to "x,x"; the ordered pairs are distinct (and even reversed
pairs of different strings) yet share the comma-joined key "x,x,x". -/
def c7Nodes : List MapNode :=
  [.mk 0 (some "x,x") 0 (some [.mk 1 (some "x") 0 none]),
   .mk 1 (some "x") 0 none,
   .mk 2 (some "x") 0 (some [.mk 3 (some "x,x") 0 none]),
   .mk 3 (some "x,x") 0 none]

def c7Geo : List (String × (ℚ × ℚ)) := [("x,x", (0, 0)), ("x", (0, 10))]

/-- The legality condition of maybeGetTransmissionPair as the source writes
it: both lookups resolve, at least one offset-adjusted longitude is greater
than westBound, at least one is less than eastBound, and the absolute
longitude difference is under 180. -/
def legalPair (geo : List (String × (ℚ × ℚ))) (node child : MapNode)
    (offsetOrig offsetDest : ℚ) : Prop :=
  match geoLookup geo node.location, geoLookup geo child.location with
  | some lo, some ld =>
      (lo.2 + offsetOrig > westBound ∨ ld.2 + offsetDest > westBound) ∧
      (lo.2 + offsetOrig < eastBound ∨ ld.2 + offsetDest < eastBound) ∧
      |lo.2 + offsetOrig - (ld.2 + offsetDest)| < 180
  | _, _ => False

/-! ## v1-to-v2 schema migrator (the unnamed CommonJS module)

The migrator mutates plain JSON objects.  Nodes of the tree are modelled as
property lists plus a structural children list: traverseTree reads
node.children only to recurse (an absent children property and an empty
array behave identically there), no pass ever writes the children property,
and the allow-list of the final prune keeps it, so the children array never
interacts with the other properties.  A children property whose value is a
truthy non-array (on which the source's .forEach would throw) is outside
the modelled domain. -/

/-- Decimal print of a natural number. -/
def natStr (n : ℕ) : String := String.mk (Nat.toDigits 10 n)

/-- Property read on a base the source has already established is not
nullish (a guard or an earlier throwing access).  Objects use their property
list; the names read through this function are never "length" nor an
array/string index, so other primitives read undefined. -/
def getv : JSVal → String → JSVal
  | .jobj l, k => getp l k
  | _, _ => (.undef)

/-- Property write in sloppy mode: writes on objects, and is silently
ignored on primitives (named-property writes on arrays are outside the
modelled domain). -/
def setv : JSVal → String → JSVal → JSVal
  | .jobj l, k, v => .jobj (assocSet l k v)
  | w, _, _ => w

/-- Property delete in sloppy mode: deletes on objects, no-op elsewhere. -/
def delv : JSVal → String → JSVal
  | .jobj l, k => .jobj (assocDel l k)
  | v, _ => v

/-- The logical-or of two already-evaluated operands. -/
def jsOr (a b : JSVal) : JSVal := if a.truthy then a else b

/-- Indexed read (maintainer[0], maintainer[1]) on a truthy base. -/
def jsIdx : JSVal → ℕ → JSVal
  | .jarr l, i => l.getD i .undef
  | .jstr s, i =>
      match s.data.get? i with
      | some c => .jstr (String.mk [c])
      | none => .undef
  | .jobj l, i => getp l (natStr i)
  | _, _ => (.undef)

/-- ToPropertyKey: string coercion of a value used as a computed object key.
Number and object printing are outside the modelled domain. -/
def jsKeyStr : JSVal → Except JSErr String
  | .undef => .ok "undefined"
  | .null => .ok "null"
  | .jbool true => .ok "true"
  | .jbool false => .ok "false"
  | .jstr s => .ok s
  | _ => .error .unmodeled

/-- Values whose computed-key coercion stays inside the modelled domain. -/
def jsKeySimple : JSVal → Bool
  | .jnum _ => false
  | .jarr _ => false
  | .jobj _ => false
  | _ => true

/-- The own enumerable entries iterated by Object.entries and for..in:
object entries, indexed elements of an array, indexed characters of a
string, nothing on other primitives. -/
def ownEntries : JSVal → List (String × JSVal)
  | .jobj l => l
  | .jarr l => ((List.range l.length).zip l).map (fun p => (natStr p.1, p.2))
  | .jstr s => ((List.range s.data.length).zip s.data).map
      (fun p => (natStr p.1, .jstr (String.mk [p.2])))
  | _ => []

/-- Object.entries: throws a TypeError on nullish input, lists own entries
otherwise. -/
def jsEntries : JSVal → Except JSErr (List (String × JSVal))
  | .undef => .error .typeError
  | .null => .error .typeError
  | v => .ok (ownEntries v)

/-- String.prototype.endsWith. -/
def strEndsWith (s suf : String) : Bool :=
  s.data.reverse.take suf.data.length == suf.data.reverse

/-- A v1 tree node: its own properties and its children (see the section
comment above for why children are structural). -/
inductive VTree where
  | node : List (String × JSVal) → List VTree → VTree

def VTree.props : VTree → List (String × JSVal)
  | .node p _ => p

def VTree.kids : VTree → List VTree
  | .node _ k => k

mutual
/-- traverseTree with a per-node fallible rewrite of the node's own
properties (every cb of the migrator touches only the visited node),
visiting a node before its children. -/
def treeMapM (f : List (String × JSVal) → Except JSErr (List (String × JSVal))) :
    VTree → Except JSErr VTree
  | .node p kids =>
    match f p with
    | .error e => .error e
    | .ok q =>
      match treeMapChildrenM f kids with
      | .error e => .error e
      | .ok kids2 => .ok (.node q kids2)

def treeMapChildrenM
    (f : List (String × JSVal) → Except JSErr (List (String × JSVal))) :
    List VTree → Except JSErr (List VTree)
  | [] => .ok []
  | t :: ts =>
    match treeMapM f t with
    | .error e => .error e
    | .ok t2 =>
      match treeMapChildrenM f ts with
      | .error e => .error e
      | .ok ts2 => .ok (t2 :: ts2)
end

mutual
/-- The property lists of all nodes of a tree, in traversal (preorder)
order. -/
def allNodes : VTree → List (List (String × JSVal))
  | .node p kids => p :: allNodesL kids

def allNodesL : List VTree → List (List (String × JSVal))
  | [] => []
  | t :: ts => allNodes t ++ allNodesL ts
end

/-- value.type === "continuous". -/
def isContinuous : JSVal → Bool
  | .jstr s => s == "continuous"
  | _ => false

/-- One v2 colorings entry: title from menuItem || legendTitle (property
reads that throw on a nullish value), the type tag, and the optional scale,
in the source's assignment order. -/
def coloringsEntry (value : JSVal) : Except JSErr (List (String × JSVal)) :=
  match jsGet value "menuItem" with
  | .error e => .error e
  | .ok menuItem =>
  match jsGet value "legendTitle" with
  | .error e => .error e
  | .ok legendTitle =>
  match jsGet value "type" with
  | .error e => .error e
  | .ok ty =>
  match jsGet value "color_map" with
  | .error e => .error e
  | .ok colorMap =>
    let e := [("title", jsOr menuItem legendTitle),
              ("type", JSVal.jstr (if isContinuous ty then "continuous" else "categorical"))]
    .ok (if colorMap.truthy then e ++ [("scale", colorMap)] else e)

/-- The loop of setColorings over Object.entries(color_options): each key
gets its entry, and the "authors" key is renamed to "author" in place. -/
def coloringsLoop : List (String × JSVal) → List (String × JSVal) →
    Except JSErr (List (String × JSVal))
  | acc, [] => .ok acc
  | acc, kv :: rest =>
    match coloringsEntry kv.2 with
    | .error e => .error e
    | .ok e =>
      let acc1 := assocSet acc kv.1 (.jobj e)
      coloringsLoop
        (if kv.1 == "authors" then
          assocDel (assocSet acc1 "author" (.jobj e)) "authors"
        else acc1) rest

/-- setColorings: Object.entries(meta.color_options) throws a TypeError when
color_options is missing or nullish; otherwise the colorings object is built
entry by entry. -/
def setColorings (meta : JSVal) : Except JSErr (List (String × JSVal)) :=
  match jsGet meta "color_options" with
  | .error e => .error e
  | .ok co =>
    match jsEntries co with
    | .error e => .error e
    | .ok entries => coloringsLoop [] entries

/-- Substring test (String.prototype.includes). -/
def chInfix (pat : List Char) : List Char → Bool
  | [] => pat.isEmpty
  | c :: rest => pat.isPrefixOf (c :: rest) || chInfix pat rest

/-- The splice of the filters array: indexOf finds the first element
strictly equal to "authors" (only a string can be) and splice replaces it
with "author"; with no occurrence the include guard fails and nothing
happens. -/
def spliceAuthors : List JSVal → List JSVal
  | [] => []
  | x :: xs =>
    match x with
    | .jstr s => if s == "authors" then .jstr "author" :: xs
                 else .jstr s :: spliceAuthors xs
    | v => v :: spliceAuthors xs

/-- v2.filters = meta.filters followed by the authors-to-author splice:
include/splice work on an array; on a truthy string the containment test
uses String.prototype.includes and a hit would call the missing splice;
every other truthy value has no includes method and the call throws. -/
def filtersAuthorRename : JSVal → Except JSErr JSVal
  | .jarr l => .ok (.jarr (spliceAuthors l))
  | .jstr s =>
      if chInfix "authors".data s.data then .error .typeError
      else .ok (.jstr s)
  | _ => .error .typeError

/-- setMiscMetaProperties: title/version/updated always, then the guarded
meta fields, the display defaults (deleting meta.defaults), and
geographic_info; a missing updated only warns in the source.  Property reads
on meta use the non-nullish read: setColorings has already thrown on a
nullish meta. -/
def setMiscMetaProperties (v2 : List (String × JSVal)) (meta : JSVal) :
    Except JSErr (List (String × JSVal) × JSVal) :=
  let v2 := assocSet v2 "title" (getv meta "title")
  let v2 := assocSet v2 "version" (.jstr "2.0-alpha.0")
  let v2 := assocSet v2 "updated" (getv meta "updated")
  let maintainer := getv meta "maintainer"
  let v2 := if maintainer.truthy then
      assocSet v2 "maintainers"
        (.jarr [.jobj [("name", jsIdx maintainer 0), ("url", jsIdx maintainer 1)]])
    else v2
  let annotations := getv meta "annotations"
  let v2 := if annotations.truthy then
      assocSet v2 "genome_annotations" annotations
    else v2
  let filters := getv meta "filters"
  let fres : Except JSErr (List (String × JSVal)) :=
    if filters.truthy then
      match filtersAuthorRename filters with
      | .error e => .error e
      | .ok f => .ok (assocSet v2 "filters" f)
    else .ok v2
  match fres with
  | .error e => .error e
  | .ok v2 =>
    let panels := getv meta "panels"
    let v2 := if panels.truthy then assocSet v2 "panels" panels else v2
    let defaults := getv meta "defaults"
    let step : List (String × JSVal) × JSVal :=
      if defaults.truthy then
        let dd :=
          (if (getv defaults "geoResolution").truthy then
            [("geo_resolution", getv defaults "geoResolution")] else []) ++
          (if (getv defaults "colorBy").truthy then
            [("color_by", getv defaults "colorBy")] else []) ++
          (if (getv defaults "distanceMeasure").truthy then
            [("distance_measure", getv defaults "distanceMeasure")] else []) ++
          (if (getv defaults "mapTriplicate").truthy then
            [("map_triplicate", getv defaults "mapTriplicate")] else [])
        (assocSet v2 "display_defaults" (.jobj dd), delv meta "defaults")
      else (v2, meta)
    let geo := getv step.2 "geo"
    .ok (if geo.truthy then assocSet step.1 "geographic_info" geo else step.1, step.2)

/-- The author pass on one node when meta.author_info is truthy: move the
attr.authors key to the attr.author object built from the author_info
lookup; a missing lookup entry only drops the key. -/
def authorCb (authorInfo : JSVal) (p : List (String × JSVal)) :
    Except JSErr (List (String × JSVal)) :=
  let attr := getp p "attr"
  if attr.truthy && (getv attr "authors").truthy then
    let v1author := getv attr "authors"
    match jsKeyStr v1author with
    | .error e => .error e
    | .ok k =>
      let v1info := getv authorInfo k
      let attr1 := delv attr "authors"
      if v1info.truthy then
        match prettyString v1author defaultOpts with
        | .error e => .error e
        | .ok pa =>
          let author : List (String × JSVal) :=
            (if (getv v1info "title").truthy then
              [("title", getv v1info "title")] else []) ++
            (if (getv v1info "journal").truthy then
              [("journal", getv v1info "journal")] else []) ++
            (if (getv v1info "paper_url").truthy then
              [("paper_url", getv v1info "paper_url")] else []) ++
            [("author", pa), ("value", v1author)]
          .ok (assocSet p "attr" (setv attr1 "author" (.jobj author)))
      else .ok (assocSet p "attr" attr1)
  else .ok p

/-- setAuthorInfo: returns immediately when meta has no truthy author_info,
otherwise rewrites every node through authorCb. -/
def setAuthorInfo (meta : JSVal) (tree : VTree) : Except JSErr VTree :=
  match jsGet meta "author_info" with
  | .error e => .error e
  | .ok ai => if ai.truthy then treeMapM (authorCb ai) tree else .ok tree

/-- First vaccine traversal (only when meta.vaccine_choices is truthy): a
selection-date vaccine object replaces node.vaccine when the choice keyed by
node.strain is truthy. -/
def vaccineCb1 (vc : JSVal) (p : List (String × JSVal)) :
    Except JSErr (List (String × JSVal)) :=
  match jsKeyStr (getp p "strain") with
  | .error e => .error e
  | .ok k =>
    let choice := getv vc k
    if choice.truthy then
      .ok (assocSet p "vaccine" (.jobj [("selection_date", choice)]))
    else .ok p

/-- Second vaccine traversal: a truthy node.serum is moved into
node.vaccine.serum, creating the vaccine object when node.vaccine is falsy
(a truthy non-object vaccine silently absorbs the sloppy-mode write). -/
def vaccineCb2 (p : List (String × JSVal)) : List (String × JSVal) :=
  if (getp p "serum").truthy then
    let vac := getp p "vaccine"
    if vac.truthy then
      match vac with
      | .jobj l => assocSet p "vaccine" (.jobj (assocSet l "serum" (.jbool true)))
      | _ => p
    else assocSet p "vaccine" (.jobj [("serum", .jbool true)])
  else p

/-- setVaccineChoicesOnNodes: the guarded choices traversal, then the serum
traversal. -/
def setVaccineChoicesOnNodes (meta : JSVal) (tree : VTree) : Except JSErr VTree :=
  match jsGet meta "vaccine_choices" with
  | .error e => .error e
  | .ok vc =>
    match (if vc.truthy then treeMapM (vaccineCb1 vc) tree else .ok tree) with
    | .error e => .error e
    | .ok t1 => treeMapM (fun p => .ok (vaccineCb2 p)) t1

/-- The fixed node-property allow-list of storeTreeAsV2. -/
def allowedProperties : List String :=
  ["strain", "div", "num_date", "vaccine", "labels", "hidden", "mutations",
   "url", "accession", "traits", "children", "author"]

/-- The attr keys never transferred to traits. -/
def attrsToIgnore : List String := ["clock_length", "date", "raw_date", "strain"]

/-- The repeated pattern if (node.attr.k) yields node.k = node.attr.k and
delete node.attr.k, used for author, accession and url. -/
def attrMove (p : List (String × JSVal)) (k : String) : List (String × JSVal) :=
  let attr := getp p "attr"
  if (getv attr k).truthy then
    assocSet (assocSet p "attr" (delv attr k)) k (getv attr k)
  else p

/-- if (!node.labels) node.labels = object-literal; node.labels.k = v (a
truthy non-object labels silently absorbs the sloppy-mode write). -/
def labelsAssign (p : List (String × JSVal)) (k : String) (v : JSVal) :
    List (String × JSVal) :=
  let labels := getp p "labels"
  if labels.truthy then
    match labels with
    | .jobj l => assocSet p "labels" (.jobj (assocSet l k v))
    | _ => p
  else assocSet p "labels" (.jobj [(k, v)])

/-- The clade branch label: set from clade_annotation || clade_name when
either is truthy, both attr keys deleted. -/
def cladeStage (p : List (String × JSVal)) : List (String × JSVal) :=
  let attr := getp p "attr"
  let cn := getv attr "clade_name"
  let ca := getv attr "clade_annotation"
  if cn.truthy || ca.truthy then
    let p1 := labelsAssign p "clade" (jsOr ca cn)
    assocSet p1 "attr" (delv (delv (getp p1 "attr") "clade_name") "clade_annotation")
  else p

/-- Array.prototype.join with a separator. -/
def amJoin (sep : String) : List String → String
  | [] => ""
  | [s] => s
  | s :: rest => s ++ sep ++ amJoin sep rest

/-- The elements joined for one aa entry; only string elements are inside
the modelled domain of Array.prototype.join. -/
def amStrings : List JSVal → Except JSErr (List String)
  | [] => .ok []
  | v :: rest =>
    match v with
    | .jstr s =>
      match amStrings rest with
      | .error e => .error e
      | .ok r => .ok (s :: r)
    | _ => .error .unmodeled

/-- One for..in entry of node.aa_muts: reading .length of a nullish value
throws; a non-empty array contributes a joined line; a non-empty string has
length but no join method; numbers and booleans have no length and are
skipped; an object's own length property is outside the modelled domain
when truthy. -/
def amEntry (kv : String × JSVal) : Except JSErr (Option String) :=
  match kv.2 with
  | .undef => .error .typeError
  | .null => .error .typeError
  | .jarr l =>
      if l.length = 0 then .ok none
      else
        match amStrings l with
        | .error e => .error e
        | .ok ss => .ok (some (kv.1 ++ ": " ++ amJoin ", " ss))
  | .jstr s => if s.data.length = 0 then .ok none else .error .typeError
  | .jobj l => if (getp l "length").truthy then .error .unmodeled else .ok none
  | _ => .ok none

/-- The muts accumulated by the aa loop, in for..in order. -/
def amLoop : List (String × JSVal) → Except JSErr (List String)
  | [] => .ok []
  | kv :: rest =>
    match amEntry kv with
    | .error e => .error e
    | .ok none => amLoop rest
    | .ok (some s) =>
      match amLoop rest with
      | .error e => .error e
      | .ok r => .ok (s :: r)

/-- The aa branch-label stage: when node.aa_muts is truthy the non-empty
entries are joined into node.labels.aa. -/
def aaStage (p : List (String × JSVal)) : Except JSErr (List (String × JSVal)) :=
  let am := getp p "aa_muts"
  if am.truthy then
    match amLoop (ownEntries am) with
    | .error e => .error e
    | .ok muts =>
      if muts.length ≠ 0 then .ok (labelsAssign p "aa" (.jstr (amJoin "; " muts)))
      else .ok p
  else .ok p

/-- The num_date stage: attr.num_date moves to node.num_date.value, with the
optional confidence. -/
def numDateStage (p : List (String × JSVal)) : List (String × JSVal) :=
  let attr := getp p "attr"
  let nd := getv attr "num_date"
  if nd.truthy then
    let p1 := assocSet (assocSet p "num_date" (.jobj [("value", nd)])) "attr"
      (delv attr "num_date")
    let attr1 := getp p1 "attr"
    let ndc := getv attr1 "num_date_confidence"
    if ndc.truthy then
      assocSet (assocSet p1 "num_date" (.jobj [("value", nd), ("confidence", ndc)]))
        "attr" (delv attr1 "num_date_confidence")
    else p1
  else p

/-- The div stage: attr.div moves to node.div whenever it is not strictly
undefined (zero is kept). -/
def divStage (p : List (String × JSVal)) : List (String × JSVal) :=
  let attr := getp p "attr"
  let dv := getv attr "div"
  if !dv.isUndef then
    assocSet (assocSet p "div" dv) "attr" (delv attr "div")
  else p

/-- A key of attr transferred to traits: not an entropy or confidence
sidecar and not in the ignore list. -/
def traitKeep (k : String) : Bool :=
  !(strEndsWith k "_entropy") && !(strEndsWith k "_confidence") &&
    !(attrsToIgnore.contains k)

/-- The traits entry of one kept attr key: the value plus the truthy
sidecars. -/
def traitEntry (attr : JSVal) (kv : String × JSVal) : List (String × JSVal) :=
  let base := [("value", kv.2)]
  let c := getv attr (kv.1 ++ "_confidence")
  let base := if c.truthy then base ++ [("confidence", c)] else base
  let e := getv attr (kv.1 ++ "_entropy")
  if e.truthy then base ++ [("entropy", e)] else base

/-- The traits stage: the kept keys of attr are rebuilt as a fresh
node.traits object (assigned only when at least one key is kept). -/
def traitsStage (p : List (String × JSVal)) : List (String × JSVal) :=
  let attr := getp p "attr"
  let tes := (ownEntries attr).filter (fun kv => traitKeep kv.1)
  if tes.length ≠ 0 then
    assocSet p "traits" (.jobj (tes.map (fun kv => (kv.1, .jobj (traitEntry attr kv)))))
  else p

/-- The mutations stage: aa_muts (or an empty object) becomes
node.mutations, muts becomes its nuc key, and both source keys are
deleted. -/
def mutsStage (p : List (String × JSVal)) : List (String × JSVal) :=
  let muts := getp p "muts"
  let am := getp p "aa_muts"
  if muts.truthy || am.truthy then
    let m0 : JSVal := if am.truthy then am else .jobj []
    let m1 := if muts.truthy then setv m0 "nuc" muts else m0
    assocDel (assocDel (assocSet p "mutations" m1) "muts") "aa_muts"
  else p

/-- The final prune: only allow-listed keys survive. -/
def pruneStage (p : List (String × JSVal)) : List (String × JSVal) :=
  p.filter (fun kv => allowedProperties.contains kv.1)

/-- The storeTreeAsV2 callback on one node: the attr reshaping stages run
under the attr truthiness guard, then the mutations merge and the prune. -/
def storeCb (p : List (String × JSVal)) : Except JSErr (List (String × JSVal)) :=
  let step : Except JSErr (List (String × JSVal)) :=
    if (getp p "attr").truthy then
      match aaStage (cladeStage (attrMove (attrMove (attrMove p "author") "accession") "url")) with
      | .error e => .error e
      | .ok c => .ok (traitsStage (divStage (numDateStage c)))
    else .ok p
  match step with
  | .error e => .error e
  | .ok p1 => .ok (pruneStage (mutsStage p1))

/-- The input of convertFromV1: the destructured tree, meta and treeName.
The tree is assumed to be a proper tree of objects (anything else throws in
the source's unguarded property accesses and is outside the model). -/
structure V1Doc where
  tree : VTree
  meta : JSVal
  treeName : JSVal

/-- The output document: its properties and the reshaped tree (stored under
the tree key by the source). -/
structure V2Doc where
  props : List (String × JSVal)
  tree : VTree

/-- convertFromV1: colorings, misc meta, author info, vaccine choices, the
tree reshape, and the optional tree_name, in source order. -/
def convertFromV1 (d : V1Doc) : Except JSErr V2Doc :=
  match setColorings d.meta with
  | .error e => .error e
  | .ok colorings =>
    match setMiscMetaProperties [("colorings", .jobj colorings)] d.meta with
    | .error e => .error e
    | .ok vm =>
      match setAuthorInfo vm.2 d.tree with
      | .error e => .error e
      | .ok t1 =>
        match setVaccineChoicesOnNodes vm.2 t1 with
        | .error e => .error e
        | .ok t2 =>
          match treeMapM storeCb t2 with
          | .error e => .error e
          | .ok t3 =>
            .ok ⟨if d.treeName.truthy then assocSet vm.1 "tree_name" d.treeName
                 else vm.1, t3⟩

/-- Whether an Except computation succeeded. -/
def exOk {α : Type} : Except JSErr α → Bool
  | .ok _ => true
  | .error _ => false

/-! ## Well-formed inputs (the domain on which the migrator cannot throw) -/

/-- The meta conditions under which no pass throws: meta is an object,
color_options is an object all of whose values are objects, and filters is
absent, falsy, or an array. -/
def wfMeta : JSVal → Bool
  | .jobj m =>
      (match assocGet m "color_options" with
       | some (.jobj co) => co.all (fun kv => kv.2.isObj)
       | _ => false) &&
      (match assocGet m "filters" with
       | none => true
       | some v => !v.truthy || v.isArr)
  | _ => false

/-- The per-node conditions under which no traversal throws: the strain key
coerces to a property key, a truthy attr.authors is a string, and a truthy
aa_muts is an object of arrays of strings. -/
def wfNode (p : List (String × JSVal)) : Bool :=
  jsKeySimple (getp p "strain") &&
  (let attr := getp p "attr"
   !(attr.truthy && (getv attr "authors").truthy) || (getv attr "authors").isStr) &&
  (let am := getp p "aa_muts"
   !am.truthy ||
     (match am with
      | .jobj l => l.all (fun kv =>
          match kv.2 with
          | .jarr es => es.all JSVal.isStr
          | _ => false)
      | _ => false))

mutual
def wfTree : VTree → Bool
  | .node p kids => wfNode p && wfForest kids

def wfForest : List VTree → Bool
  | [] => true
  | t :: ts => wfTree t && wfForest ts
end

/-- A well-formed legacy document. -/
def wfDoc (d : V1Doc) : Bool := wfMeta d.meta && wfTree d.tree

/-! ## Concrete migrator inputs -/

/-- A well-formed legacy meta exercising colorings (with the authors
rename), filters (with the splice) and display defaults. -/
def cMigMeta : JSVal :=
  .jobj [("color_options", .jobj
            [("country", .jobj [("menuItem", .jstr "Country")]),
             ("authors", .jobj [("legendTitle", .jstr "Authors"),
                                ("type", .jstr "continuous")])]),
         ("title", .jstr "T"), ("updated", .jstr "today"),
         ("filters", .jarr [.jstr "authors", .jstr "country"]),
         ("defaults", .jobj [("colorBy", .jstr "country")])]

/-- A two-node legacy tree exercising the attr moves, labels, traits and
mutations reshaping. -/
def cMigTree : VTree :=
  .node [("strain", .jstr "rootA"),
         ("attr", .jobj [("authors", .jstr "doe2001"), ("div", .jnum 0),
                         ("country", .jstr "usa"),
                         ("country_confidence", .jobj [("usa", .jnum 1)])]),
         ("junk", .jnum 7), ("muts", .jarr [.jstr "A1G"]),
         ("aa_muts", .jobj [("HA", .jarr [.jstr "K2R"]), ("NA", .jarr [])])]
    [.node [("strain", .jstr "B"),
            ("attr", .jobj [("num_date", .jnum 2000), ("clade_name", .jstr "c1")]),
            ("serum", .jbool true)] []]

def cMigDoc : V1Doc := ⟨cMigTree, cMigMeta, .jstr "tn"⟩

/-- A minimal legacy document whose single node carries attr.authors and an
out-of-allow-list property. -/
def cMigSmall : V1Doc :=
  ⟨.node [("strain", .jstr "s"), ("junk", .jnum 1),
          ("attr", .jobj [("authors", .jstr "doe"), ("country", .jstr "fr")])] [],
   .jobj [("color_options", .jobj [])], .undef⟩

/-- The node properties cMigSmall migrates to. -/
def cMigSmallProps : List (String × JSVal) :=
  [("strain", .jstr "s"),
   ("traits", .jobj [("authors", .jobj [("value", .jstr "doe")]),
                     ("country", .jobj [("value", .jstr "fr")])])]

/-- The document cMigSmall migrates to. -/
def cMigSmallOut : V2Doc :=
  ⟨[("colorings", .jobj []), ("title", .undef),
    ("version", .jstr "2.0-alpha.0"), ("updated", .undef)],
   .node cMigSmallProps []⟩

/-! ## Helper lemmas -/

theorem foldl_fixed {α β : Type} (f : β → α → β) (h : ∀ b a, f b a = b) :
    ∀ (l : List α) (b : β), l.foldl f b = b := by
  intro l
  induction l with
  | nil => intro b; rfl
  | cons a rest ih =>
    intro b
    rw [List.foldl_cons, h b a]
    exact ih b

theorem foldl_guard {α β γ : Type} (p : α → Bool) (h : α → γ) (g : β → γ → β) :
    ∀ (l : List α) (b : β),
      l.foldl (fun b a => if p a then g b (h a) else b) b =
        ((l.filter p).map h).foldl g b := by
  intro l
  induction l with
  | nil => intro b; rfl
  | cons a rest ih =>
    intro b
    by_cases hp : p a
    · simp only [List.foldl_cons, hp, if_true, List.filter_cons_of_pos hp,
        List.map_cons]
      exact ih (g b (h a))
    · simp only [List.foldl_cons, hp, if_false, List.filter_cons_of_neg hp,
        Bool.false_eq_true]
      exact ih b

theorem foldl_flatMap {α β γ : Type} (f : α → List γ) (g : β → γ → β) :
    ∀ (l : List α) (b : β),
      (l.flatMap f).foldl g b = l.foldl (fun b a => (f a).foldl g b) b := by
  intro l
  induction l with
  | nil => intro b; rfl
  | cons a rest ih =>
    intro b
    rw [List.flatMap_cons, List.foldl_append, List.foldl_cons]
    exact ih _

theorem countP_flatMap {α β : Type} (p : β → Bool) (f : α → List β) :
    ∀ (l : List α),
      (l.flatMap f).countP p = (l.map (fun x => (f x).countP p)).sum := by
  intro l
  induction l with
  | nil => rfl
  | cons a rest ih =>
    rw [List.flatMap_cons, List.countP_append, List.map_cons, List.sum_cons, ih]

theorem length_filterMap_countP {α β : Type} (f : α → Option β) :
    ∀ (l : List α),
      (l.filterMap f).length = l.countP (fun x => (f x).isSome) := by
  intro l
  induction l with
  | nil => rfl
  | cons a rest ih =>
    cases hf : f a with
    | none =>
      rw [List.filterMap_cons_none hf, List.countP_cons_of_neg, ih]
      simp [hf]
    | some b =>
      rw [List.filterMap_cons_some hf, List.length_cons, List.countP_cons_of_pos, ih]
      simp [hf]

theorem minBy_foldl_spec {α : Type} (f : α → ℚ) :
    ∀ (l : List α) (b : α),
      (l.foldl (fun best y => if f y < f best then y else best) b = b ∨
        l.foldl (fun best y => if f y < f best then y else best) b ∈ l) ∧
      f (l.foldl (fun best y => if f y < f best then y else best) b) ≤ f b ∧
      ∀ y ∈ l, f (l.foldl (fun best y => if f y < f best then y else best) b) ≤ f y := by
  intro l
  induction l with
  | nil => intro b; exact ⟨Or.inl rfl, le_refl _, by intro y hy; cases hy⟩
  | cons a rest ih =>
    intro b
    obtain ⟨hmem, hleb, hall⟩ := ih (if f a < f b then a else b)
    have hstep_b : f (if f a < f b then a else b) ≤ f b := by
      by_cases h : f a < f b
      · rw [if_pos h]; exact le_of_lt h
      · rw [if_neg h]
    have hstep_a : f (if f a < f b then a else b) ≤ f a := by
      by_cases h : f a < f b
      · rw [if_pos h]
      · rw [if_neg h]; exact le_of_not_lt h
    refine ⟨?_, ?_, ?_⟩
    · rcases hmem with h | h
      · rw [List.foldl_cons, h]
        by_cases hc : f a < f b
        · rw [if_pos hc]; exact Or.inr (List.mem_cons_self a rest)
        · rw [if_neg hc]; exact Or.inl rfl
      · rw [List.foldl_cons]
        exact Or.inr (List.mem_cons_of_mem a h)
    · rw [List.foldl_cons]
      exact le_trans hleb hstep_b
    · intro y hy
      rw [List.foldl_cons]
      rcases List.mem_cons.1 hy with rfl | hy
      · exact le_trans hleb hstep_a
      · exact hall y hy

theorem jsMinBy_spec {α : Type} (f : α → ℚ) (l : List α) (x : α)
    (h : jsMinBy f l = some x) : x ∈ l ∧ ∀ y ∈ l, f x ≤ f y := by
  cases l with
  | nil => cases h
  | cons a rest =>
    unfold jsMinBy at h
    obtain ⟨hmem, hleb, hall⟩ := minBy_foldl_spec f rest a
    have hx : rest.foldl (fun best y => if f y < f best then y else best) a = x :=
      Option.some.inj h
    constructor
    · rcases hmem with hm | hm
      · rw [← hx, hm]; exact List.mem_cons_self a rest
      · rw [← hx]; exact List.mem_cons_of_mem a hm
    · intro y hy
      rcases List.mem_cons.1 hy with rfl | hy
      · rw [← hx]; exact hleb
      · rw [← hx]; exact hall y hy

/-- The candidate record of maybeConstructTransmissionEvent does not depend
on the threaded missing set. -/
theorem construct_fst (env : MapCollab) (geo : List (String × (ℚ × ℚ)))
    (node child : MapNode) (nodeColors : List String) (visibility : List ℕ)
    (offsetOrig offsetDest : ℚ) (missing : List (Option String)) (extend : ℕ) :
    (maybeConstructTransmissionEvent env geo node child nodeColors visibility
      offsetOrig offsetDest missing extend).1 =
    mkEventOpt env node child nodeColors visibility offsetOrig offsetDest extend
      (geoLookup geo node.location) (geoLookup geo child.location) := rfl

/-- Folds that push an optional candidate per element and thread unrelated
state in the second component collect the candidates in order. -/
theorem foldl_fst_collect {β σ τ : Type} (step : (List β × σ) → τ → (List β × σ))
    (fcand : τ → Option β)
    (hstep : ∀ acc s o, (step (acc, s) o).1 =
      (match fcand o with | some t => acc ++ [t] | none => acc)) :
    ∀ (l : List τ) (acc : List β) (s : σ),
      (l.foldl step (acc, s)).1 = acc ++ l.filterMap fcand := by
  intro l
  induction l with
  | nil => intro acc s; simp
  | cons o rest ih =>
    intro acc s
    rw [List.foldl_cons, List.filterMap_cons,
      show step (acc, s) o = ((step (acc, s) o).1, (step (acc, s) o).2) from rfl,
      ih ((step (acc, s) o).1) ((step (acc, s) o).2), hstep acc s o]
    cases hc : fcand o with
    | none => simp
    | some t => simp

/-- The chosen closest event is the first minimal-separation candidate of the
candidate list, independently of the threaded missing set. -/
theorem closest_fst (env : MapCollab) (geo : List (String × (ℚ × ℚ)))
    (node child : MapNode) (nodeColors : List String) (visibility : List ℕ)
    (offsetOrig : ℚ) (missing : List (Option String)) (extend : ℕ) :
    (maybeGetClosestTransmissionEvent env geo node child nodeColors visibility
      offsetOrig missing extend).1 =
    jsMinBy dxAbs (candList env geo node child nodeColors visibility offsetOrig extend) := by
  unfold maybeGetClosestTransmissionEvent candList
  dsimp only
  rw [foldl_fst_collect _
    (fun offsetDest =>
      mkEventOpt env node child nodeColors visibility offsetOrig offsetDest extend
        (geoLookup geo node.location) (geoLookup geo child.location))
    (fun acc s o => by
      dsimp only
      rw [construct_fst]
      cases mkEventOpt env node child nodeColors visibility offsetOrig o extend
        (geoLookup geo node.location) (geoLookup geo child.location) <;> rfl)
    [-360, 0, 360] [] missing,
    List.nil_append]

/-- The events of one edge, written through the candidate lists. -/
theorem edgeEvents_eq (env : MapCollab) (geo : List (String × (ℚ × ℚ)))
    (nodeColors : List String) (visibility : List ℕ) (offsets : List ℚ)
    (e : MapNode × MapNode) (ext : ℕ) :
    edgeEvents env geo nodeColors visibility offsets e ext =
      offsets.filterMap
        (fun o => jsMinBy dxAbs (candList env geo e.1 e.2 nodeColors visibility o ext)) := by
  unfold edgeEvents
  simp only [closest_fst]

theorem edgeStep_data (env : MapCollab) (geo : List (String × (ℚ × ℚ)))
    (nodeColors : List String) (visibility : List ℕ) (offsets : List ℚ)
    (st : TransState) (e : MapNode × MapNode) :
    (edgeStep env geo nodeColors visibility offsets st e).data =
      st.data ++ edgeEvents env geo nodeColors visibility offsets e
        (bumpCount st.counts (edgeKey e)).2 := by
  unfold edgeStep
  dsimp only
  rw [edgeEvents_eq]
  rw [foldl_fst_collect _
    (fun o => jsMinBy dxAbs (candList env geo e.1 e.2 nodeColors visibility o
      (bumpCount st.counts (edgeKey e)).2))
    (fun acc s o => by
      dsimp only
      rw [closest_fst]
      cases jsMinBy dxAbs (candList env geo e.1 e.2 nodeColors visibility o
        (bumpCount st.counts (edgeKey e)).2) <;> rfl)
    offsets [] st.missing, List.nil_append]

theorem edgeStep_counts (env : MapCollab) (geo : List (String × (ℚ × ℚ)))
    (nodeColors : List String) (visibility : List ℕ) (offsets : List ℚ)
    (st : TransState) (e : MapNode × MapNode) :
    (edgeStep env geo nodeColors visibility offsets st e).counts =
      (bumpCount st.counts (edgeKey e)).1 := rfl

/-- Folding edgeStep over an edge list appends, per edge, the events of that
edge under the extend the running counter assigns it. -/
theorem processEdges_data (env : MapCollab) (geo : List (String × (ℚ × ℚ)))
    (nodeColors : List String) (visibility : List ℕ) (offsets : List ℚ) :
    ∀ (es : List (MapNode × MapNode)) (st : TransState),
      (es.foldl (edgeStep env geo nodeColors visibility offsets) st).data =
        st.data ++ (extendsFrom st.counts es).flatMap
          (fun p => edgeEvents env geo nodeColors visibility offsets p.1 p.2) := by
  intro es
  induction es with
  | nil => intro st; simp [extendsFrom]
  | cons e rest ih =>
    intro st
    rw [List.foldl_cons, ih, edgeStep_data, edgeStep_counts]
    simp only [extendsFrom, List.flatMap_cons, List.append_assoc]

/-- The node/children double loop of setupTransmissionData visits exactly the
guarded edges, in order. -/
theorem setup_loop_eq (env : MapCollab) (geo : List (String × (ℚ × ℚ)))
    (nodeColors : List String) (visibility : List ℕ) (offsets : List ℚ)
    (nodes : List MapNode) (st : TransState) :
    nodes.foldl
      (fun st n =>
        match n.children with
        | some cs => cs.foldl
            (fun st c => processChild env geo nodeColors visibility offsets st n c) st
        | none => st)
      st =
    (flatEdges nodes).foldl (edgeStep env geo nodeColors visibility offsets) st := by
  have hfun : ∀ (st : TransState) (n : MapNode),
      (match n.children with
       | some cs => cs.foldl
           (fun st c => processChild env geo nodeColors visibility offsets st n c) st
       | none => st) =
      (childEdges n).foldl (edgeStep env geo nodeColors visibility offsets) st := by
    intro st n
    cases hn : n.children with
    | none => unfold childEdges; rw [hn]; rfl
    | some cs =>
      unfold childEdges
      rw [hn]
      exact foldl_guard (fun c => guardEdge n c) (fun c => (n, c))
        (edgeStep env geo nodeColors visibility offsets) cs st
  unfold flatEdges
  rw [foldl_flatMap]
  have : (fun (st : TransState) (n : MapNode) =>
      match n.children with
      | some cs => cs.foldl
          (fun st c => processChild env geo nodeColors visibility offsets st n c) st
      | none => st) =
    (fun (st : TransState) (n : MapNode) =>
      (childEdges n).foldl (edgeStep env geo nodeColors visibility offsets) st) :=
    funext (fun st => funext (fun n => hfun st n))
  rw [this]

/-- Master characterisation: transmissionData is the concatenation, over the
guarded edges in traversal order, of each edge's closest events (one per
origin offset with a qualifying candidate), under the comma-joined-counter
extend values. -/
theorem setupTransmissionData_data (env : MapCollab) (nodes : List MapNode)
    (visibility : List ℕ) (nodeColors : List String) (triplicate : Bool)
    (geo : List (String × (ℚ × ℚ))) :
    (setupTransmissionData env nodes visibility nodeColors triplicate geo).transmissionData =
      (extendsFrom [] (flatEdges nodes)).flatMap
        (fun p => edgeEvents env geo nodeColors visibility (offsetsOf triplicate) p.1 p.2) := by
  unfold setupTransmissionData
  dsimp only
  rw [setup_loop_eq, processEdges_data]
  rfl

/-! ## Counter lemmas -/

theorem assocGet_cons {α : Type} (k1 : String) (v1 : α) (m : List (String × α))
    (k : String) :
    assocGet ((k1, v1) :: m) k = if k1 == k then some v1 else assocGet m k := by
  unfold assocGet
  rw [List.find?_cons]
  by_cases h : k1 == k
  · simp [h]
  · simp [h]

/-- Looking up any key in a list whose k-entries were overwritten reads as
before when the key differs from k. -/
theorem mapReplace_lookup_ne {α : Type} (k : String) (v : α) (k2 : String)
    (h2 : k2 ≠ k) :
    ∀ (t : List (String × α)),
      assocGet (t.map (fun kv => if kv.1 == k then (k, v) else kv)) k2 =
        assocGet t k2 := by
  intro t
  induction t with
  | nil => rfl
  | cons b u ih =>
    by_cases hb : b.1 == k
    · have hbeq : b.1 = k := by simpa using hb
      have hk2 : ¬ (k == k2) := by simpa using fun hx => h2 hx.symm
      have hbk2 : ¬ (b.1 == k2) := by
        rw [hbeq]; exact hk2
      rw [List.map_cons, if_pos hb, assocGet_cons, assocGet_cons, if_neg hk2,
        if_neg hbk2]
      exact ih
    · rw [List.map_cons, if_neg hb, assocGet_cons, assocGet_cons]
      by_cases hbk2 : b.1 == k2
      · rw [if_pos hbk2, if_pos hbk2]
      · rw [if_neg hbk2, if_neg hbk2]
        exact ih

theorem assocSet_cons {α : Type} (a : String × α) (t : List (String × α))
    (k : String) (v : α) :
    assocSet (a :: t) k v =
      if a.1 == k then
        (k, v) :: t.map (fun kv => if kv.1 == k then (k, v) else kv)
      else a :: assocSet t k v := by
  unfold assocSet
  by_cases ha : a.1 == k
  · rw [if_pos ha,
      if_pos (by rw [List.find?_cons]; simp [ha]),
      List.map_cons, if_pos ha]
  · rw [if_neg ha]
    by_cases hf : (t.find? (fun kv => kv.1 == k)).isSome
    · rw [if_pos (by rw [List.find?_cons]; simp [ha, hf]),
        List.map_cons, if_neg ha, if_pos hf]
    · rw [if_neg (by rw [List.find?_cons]; simp [ha]; simpa using hf),
        if_neg hf, List.cons_append]

/-- Replacing the value stored at a key: any other key reads as before, the
key itself reads the new value. -/
theorem assocGet_set {α : Type} (m : List (String × α)) (k : String) (v : α)
    (k2 : String) :
    assocGet (assocSet m k v) k2 = if k2 = k then some v else assocGet m k2 := by
  induction m with
  | nil =>
    show assocGet (assocSet [] k v) k2 = _
    unfold assocSet
    rw [if_neg (by simp), List.nil_append, assocGet_cons]
    by_cases h2 : k2 = k
    · rw [if_pos (by simp [h2]), if_pos h2]
    · rw [if_neg (by simpa using fun hx => h2 hx.symm), if_neg h2]
  | cons a t ih =>
    rw [assocSet_cons]
    by_cases ha : a.1 == k
    · have haeq : a.1 = k := by simpa using ha
      rw [if_pos ha, assocGet_cons]
      by_cases h2 : k2 = k
      · rw [if_pos (by simp [h2]), if_pos h2]
      · rw [if_neg (by simpa using fun hx => h2 hx.symm), if_neg h2,
          mapReplace_lookup_ne k v k2 h2 t, assocGet_cons,
          if_neg (by rw [haeq]; simpa using fun hx => h2 hx.symm)]
    · rw [if_neg ha, assocGet_cons, assocGet_cons]
      by_cases hak2 : a.1 == k2
      · have : ¬ k2 = k := by
          intro hx
          subst hx
          exact ha hak2
        rw [if_pos hak2, if_neg this, if_pos hak2]
      · rw [if_neg hak2, if_neg hak2]
        exact ih

theorem bumpCount_snd (m : List (String × ℕ)) (k : String) :
    (bumpCount m k).2 = lookupCount m k + 1 := by
  unfold bumpCount lookupCount
  cases h : assocGet m k <;> simp [h]

theorem bumpCount_fst_lookup (m : List (String × ℕ)) (k k2 : String) :
    lookupCount (bumpCount m k).1 k2 =
      if k2 = k then lookupCount m k + 1 else lookupCount m k2 := by
  unfold bumpCount
  cases h : assocGet m k with
  | some n =>
    unfold lookupCount
    rw [assocGet_set]
    by_cases h2 : k2 = k
    · rw [if_pos h2, if_pos h2, h]
      rfl
    · rw [if_neg h2, if_neg h2]
  | none =>
    have hset : m ++ [(k, 1)] = assocSet m k 1 := by
      unfold assocSet
      rw [if_neg]
      intro hx
      rcases Option.isSome_iff_exists.1 hx with ⟨kv, hkv⟩
      unfold assocGet at h
      rw [hkv] at h
      simp at h
    unfold lookupCount
    rw [hset, assocGet_set]
    by_cases h2 : k2 = k
    · rw [if_pos h2, if_pos h2, h]
      rfl
    · rw [if_neg h2, if_neg h2]

/-! ## The extend counter as a running per-pair count -/

theorem edgeKey_of_pair {e1 e2 : MapNode × MapNode}
    (h : edgePair e1 = edgePair e2) : edgeKey e1 = edgeKey e2 := by
  unfold edgePair at h
  unfold edgeKey
  rw [show e1.1.location = e2.1.location from congrArg Prod.fst h,
    show e1.2.location = e2.2.location from congrArg Prod.snd h]

theorem extendsFrom_fst (counts : List (String × ℕ)) :
    ∀ (es : List (MapNode × MapNode)),
      (extendsFrom counts es).map Prod.fst = es := by
  intro es
  induction es generalizing counts with
  | nil => rfl
  | cons e rest ih => simp only [extendsFrom, List.map_cons, ih]

theorem extendsFrom_length (counts : List (String × ℕ))
    (es : List (MapNode × MapNode)) :
    (extendsFrom counts es).length = es.length := by
  have := congrArg List.length (extendsFrom_fst counts es)
  simpa using this

/-- The extend assigned to the edge at position i is one plus the number of
earlier edges with the same ordered location pair, provided no two distinct
pairs collide on the comma-joined key. -/
theorem extendsFrom_spec :
    ∀ (es prior : List (MapNode × MapNode)) (counts : List (String × ℕ)),
      keyInjOn (prior ++ es) →
      (∀ k, lookupCount counts k = prior.countP (fun e2 => edgeKey e2 == k)) →
      ∀ (i : ℕ) (p : (MapNode × MapNode) × ℕ),
        (extendsFrom counts es).get? i = some p →
        p.2 = 1 + (prior ++ es.take i).countP (fun e2 => samePairB e2 p.1) := by
  intro es
  induction es with
  | nil => intro prior counts _ _ i p h; cases h
  | cons e rest ih =>
    intro prior counts hinj hcounts i p hp
    have hmem_e : e ∈ prior ++ e :: rest := by simp
    cases i with
    | zero =>
      unfold extendsFrom at hp
      rw [List.get?_cons_zero] at hp
      have hpe : p = (e, (bumpCount counts (edgeKey e)).2) :=
        (Option.some.inj hp).symm
      subst hpe
      dsimp only
      rw [List.take_zero, List.append_nil, bumpCount_snd, hcounts (edgeKey e)]
      have hcnt : prior.countP (fun e2 => edgeKey e2 == edgeKey e) =
          prior.countP (fun e2 => samePairB e2 e) := by
        apply List.countP_congr
        intro e2 he2
        have hmem_e2 : e2 ∈ prior ++ e :: rest := List.mem_append_left _ he2
        constructor
        · intro hkey
          have : edgePair e2 = edgePair e :=
            hinj e2 hmem_e2 e hmem_e (by simpa using hkey)
          simp [samePairB, this]
        · intro hpair
          have : edgePair e2 = edgePair e := by simpa [samePairB] using hpair
          simp [edgeKey_of_pair this]
      rw [hcnt]
      omega
    | succ j =>
      unfold extendsFrom at hp
      rw [List.get?_cons_succ] at hp
      have happ : (prior ++ [e]) ++ rest = prior ++ e :: rest := by simp
      have hinj2 : keyInjOn ((prior ++ [e]) ++ rest) := by rw [happ]; exact hinj
      have hcounts2 : ∀ k, lookupCount (bumpCount counts (edgeKey e)).1 k =
          (prior ++ [e]).countP (fun e2 => edgeKey e2 == k) := by
        intro k
        rw [bumpCount_fst_lookup, List.countP_append]
        by_cases hk : k = edgeKey e
        · subst hk
          rw [if_pos rfl, hcounts (edgeKey e)]
          simp [List.countP_cons]
        · rw [if_neg hk, hcounts k]
          have hne : ¬ (edgeKey e == k) := by simpa using fun hx => hk hx.symm
          simp [List.countP_cons, hne]
      have hres := ih (prior ++ [e]) (bumpCount counts (edgeKey e)).1 hinj2 hcounts2 j p hp
      rw [hres, List.take_succ_cons]
      congr 1
      simp

/-! ## Deme fold structure -/

theorem assocGet_none_iff {α : Type} (m : List (String × α)) (k : String) :
    assocGet m k = none ↔ ∀ kv ∈ m, kv.1 ≠ k := by
  unfold assocGet
  rw [Option.map_eq_none', List.find?_eq_none]
  constructor
  · intro h kv hkv
    have := h kv hkv
    simpa using this
  · intro h kv hkv
    simpa using h kv hkv

theorem assocUpdate_keys {α : Type} (m : List (String × α)) (k : String)
    (f : α → α) : assocKeys (assocUpdate m k f) = assocKeys m := by
  unfold assocKeys assocUpdate
  rw [List.map_map]
  apply List.map_congr_left
  intro kv _
  by_cases h : kv.1 == k
  · have : kv.1 = k := by simpa using h
    simp [h, this]
  · have hne : ¬ kv.1 = k := by simpa using h
    simp [h, hne]

/-- The bucket keys produced by getDemeColors are pairwise distinct: the
first pass inserts a key only when it is absent, the second pass never adds
a key. -/
theorem getDemeColors_nodup_keys (nodes : List MapNode) (visibility : List ℕ)
    (nodeColors : List String) :
    (assocKeys (getDemeColors nodes visibility nodeColors)).Nodup := by
  unfold getDemeColors
  have pass1 : ∀ (l : List MapNode) (m : List (String × List (String × ℕ))),
      (assocKeys m).Nodup →
      (assocKeys (l.foldl
        (fun m n =>
          if n.isTip then
            match n.location with
            | some loc =>
              if loc ≠ "" then
                (match assocGet m loc with
                 | none => m ++ [(loc, [])]
                 | some _ => m)
              else m
            | none => m
          else m)
        m)).Nodup := by
    intro l
    induction l with
    | nil => intro m hm; exact hm
    | cons n rest ih =>
      intro m hm
      rw [List.foldl_cons]
      apply ih
      by_cases htip : n.isTip
      · rw [if_pos htip]
        cases hloc : n.location with
        | none => exact hm
        | some loc =>
          dsimp only
          by_cases hne : loc ≠ ""
          · rw [if_pos hne]
            cases hget : assocGet m loc with
            | none =>
              unfold assocKeys
              rw [List.map_append]
              apply List.Nodup.append hm (by simp)
              intro a ha hb
              simp only [List.map_cons, List.map_nil, List.mem_singleton] at hb
              have hni := (assocGet_none_iff m loc).1 hget
              rcases List.mem_map.1 ha with ⟨kv, hkv, hkva⟩
              exact hni kv hkv (by rw [hkva, hb])
            | some _ => exact hm
          · rw [if_neg hne]; exact hm
      · rw [if_neg htip]; exact hm
  have pass2 : ∀ (l : List (ℕ × MapNode)) (m : List (String × List (String × ℕ))),
      (assocKeys m).Nodup →
      (assocKeys (l.foldl
        (fun m p =>
          if p.2.isTip && visAt visibility p.1 then
            match p.2.location with
            | some loc =>
              if loc ≠ "" then
                assocUpdate m loc (fun cl => (bumpCount cl (colorKeyAt nodeColors p.1)).1)
              else m
            | none => m
          else m)
        m)).Nodup := by
    intro l
    induction l with
    | nil => intro m hm; exact hm
    | cons p rest ih =>
      intro m hm
      rw [List.foldl_cons]
      apply ih
      by_cases hc : p.2.isTip && visAt visibility p.1
      · rw [if_pos hc]
        cases hloc : p.2.location with
        | none => exact hm
        | some loc =>
          dsimp only
          by_cases hne : loc ≠ ""
          · rw [if_pos hne, assocUpdate_keys]; exact hm
          · rw [if_neg hne]; exact hm
      · rw [if_neg hc]; exact hm
  exact pass2 _ _ (pass1 nodes [] (by simp [assocKeys]))

/-- The deme record pushed when demeGood holds. -/
def demePart (env : MapCollab) (geo : List (String × (ℚ × ℚ))) (offset : ℚ)
    (kv : String × List (String × ℕ)) : Option DemeRec :=
  if demeGood geo offset kv.1 then some (demeRecFor env geo offset kv) else none

theorem demeStep_demeData (env : MapCollab) (geo : List (String × (ℚ × ℚ)))
    (offset : ℚ) (acc : DemeAcc) (kv : String × List (String × ℕ)) :
    (demeStep env geo offset acc kv).demeData =
      acc.demeData ++ (demePart env geo offset kv).toList := by
  unfold demeStep demePart
  by_cases h : demeGood geo offset kv.1
  · rw [if_pos h, if_pos h]; rfl
  · rw [if_neg h, if_neg h]; simp

theorem demeStep_arcData (env : MapCollab) (geo : List (String × (ℚ × ℚ)))
    (offset : ℚ) (acc : DemeAcc) (kv : String × List (String × ℕ)) :
    (demeStep env geo offset acc kv).arcData =
      acc.arcData ++ arcsFor env geo offset kv := by
  unfold demeStep
  by_cases h : demeGood geo offset kv.1
  · rw [if_pos h]
  · rw [if_neg h]

theorem foldl_demeStep_demeData (env : MapCollab)
    (geo : List (String × (ℚ × ℚ))) (offset : ℚ)
    (dm : List (String × List (String × ℕ))) :
    ∀ (acc : DemeAcc),
      (dm.foldl (demeStep env geo offset) acc).demeData =
        acc.demeData ++ dm.filterMap (demePart env geo offset) := by
  induction dm with
  | nil => intro acc; simp
  | cons kv rest ih =>
    intro acc
    rw [List.foldl_cons, ih, demeStep_demeData, List.append_assoc]
    congr 1
    cases h : demePart env geo offset kv with
    | none => rw [List.filterMap_cons_none h]; simp
    | some d => rw [List.filterMap_cons_some h]; simp

theorem foldl_demeStep_arcData (env : MapCollab)
    (geo : List (String × (ℚ × ℚ))) (offset : ℚ)
    (dm : List (String × List (String × ℕ))) :
    ∀ (acc : DemeAcc),
      (dm.foldl (demeStep env geo offset) acc).arcData =
        acc.arcData ++ dm.flatMap (arcsFor env geo offset) := by
  induction dm with
  | nil => intro acc; simp
  | cons kv rest ih =>
    intro acc
    rw [List.foldl_cons, ih, demeStep_arcData, List.append_assoc, List.flatMap_cons]

theorem offsets_demeData (env : MapCollab) (geo : List (String × (ℚ × ℚ)))
    (dm : List (String × List (String × ℕ))) :
    ∀ (offsets : List ℚ) (acc : DemeAcc),
      ((offsets.foldl (fun a o => dm.foldl (demeStep env geo o) a) acc)).demeData =
        acc.demeData ++ offsets.flatMap (fun o => dm.filterMap (demePart env geo o)) := by
  intro offsets
  induction offsets with
  | nil => intro acc; simp
  | cons o rest ih =>
    intro acc
    rw [List.foldl_cons, ih, foldl_demeStep_demeData, List.append_assoc,
      List.flatMap_cons]

theorem offsets_arcData (env : MapCollab) (geo : List (String × (ℚ × ℚ)))
    (dm : List (String × List (String × ℕ))) :
    ∀ (offsets : List ℚ) (acc : DemeAcc),
      ((offsets.foldl (fun a o => dm.foldl (demeStep env geo o) a) acc)).arcData =
        acc.arcData ++ offsets.flatMap (fun o => dm.flatMap (arcsFor env geo o)) := by
  intro offsets
  induction offsets with
  | nil => intro acc; simp
  | cons o rest ih =>
    intro acc
    rw [List.foldl_cons, ih, foldl_demeStep_arcData, List.append_assoc,
      List.flatMap_cons]

theorem demePart_name (env : MapCollab) (geo : List (String × (ℚ × ℚ)))
    (offset : ℚ) (kv : String × List (String × ℕ)) (d : DemeRec)
    (h : demePart env geo offset kv = some d) : d.name = kv.1 := by
  unfold demePart at h
  by_cases hg : demeGood geo offset kv.1
  · rw [if_pos hg] at h
    rw [← Option.some.inj h]
            -- the record name field is the bucket key
    rfl
  · rw [if_neg hg] at h
    cases h

theorem countP_demePart_absent (env : MapCollab) (geo : List (String × (ℚ × ℚ)))
    (offset : ℚ) (dm : List (String × List (String × ℕ))) (k : String)
    (p : DemeRec → Bool) (hp : ∀ d : DemeRec, p d = true → d.name = k)
    (habs : ∀ kv ∈ dm, kv.1 ≠ k) :
    (dm.filterMap (demePart env geo offset)).countP p = 0 := by
  rw [List.countP_eq_zero]
  intro d hd
  rcases List.mem_filterMap.1 hd with ⟨kv, hkv, hdkv⟩
  intro hpd
  exact absurd ((demePart_name env geo offset kv d hdkv) ▸ hp d hpd)
    (habs kv hkv)

/-- Counting over the demes pushed at one offset, when the bucket keys are
pairwise distinct and the predicate only accepts records named k: exactly the
bucket of k contributes, and only when demeGood holds there. -/
theorem countP_demePart_key (env : MapCollab) (geo : List (String × (ℚ × ℚ)))
    (offset : ℚ) (k : String) (p : DemeRec → Bool)
    (hp : ∀ d : DemeRec, p d = true → d.name = k) :
    ∀ (dm : List (String × List (String × ℕ))) (v : List (String × ℕ)),
      (assocKeys dm).Nodup → assocGet dm k = some v →
      (dm.filterMap (demePart env geo offset)).countP p =
        if demeGood geo offset k && p (demeRecFor env geo offset (k, v)) then 1
        else 0 := by
  intro dm
  induction dm with
  | nil => intro v _ hk; cases hk
  | cons kv rest ih =>
    intro v hnodup hk
    rw [assocGet_cons] at hk
    have hnodup_rest : (assocKeys rest).Nodup := by
      rw [assocKeys, List.map_cons] at hnodup
      exact (List.nodup_cons.1 hnodup).2
    by_cases hkv : kv.1 == k
    · have hkveq : kv.1 = k := by simpa using hkv
      rw [if_pos hkv] at hk
      have hv1 : kv.2 = v := Option.some.inj hk
      have hv : kv = (k, v) := Prod.ext hkveq hv1
      have habs : ∀ kv2 ∈ rest, kv2.1 ≠ k := by
        intro kv2 hkv2 hx
        rw [assocKeys, List.map_cons] at hnodup
        have := (List.nodup_cons.1 hnodup).1
        exact this (hkveq ▸ hx ▸ List.mem_map_of_mem Prod.fst hkv2)
      have hrest : (rest.filterMap (demePart env geo offset)).countP p = 0 :=
        countP_demePart_absent env geo offset rest k p hp habs
      rw [List.filterMap_cons]
      cases hd : demePart env geo offset kv with
      | none =>
        unfold demePart at hd
        by_cases hg : demeGood geo offset kv.1
        · rw [if_pos hg] at hd; cases hd
        · rw [hrest]
          rw [hkveq] at hg
          simp [hg]
      | some d =>
        unfold demePart at hd
        by_cases hg : demeGood geo offset kv.1
        · rw [if_pos hg] at hd
          have hde : d = demeRecFor env geo offset (k, v) := by
            rw [← Option.some.inj hd, hv]
          rw [List.countP_cons, hrest, hde]
          rw [hkveq] at hg
          by_cases hpd : p (demeRecFor env geo offset (k, v))
          · simp [hg, hpd]
          · simp [hg, hpd]
        · rw [if_neg hg] at hd; cases hd
    · rw [if_neg hkv] at hk
      have hkne : kv.1 ≠ k := by simpa using hkv
      rw [List.filterMap_cons]
      cases hd : demePart env geo offset kv with
      | none => exact ih v hnodup_rest hk
      | some d =>
        rw [List.countP_cons]
        have hname := demePart_name env geo offset kv d hd
        have hpd : ¬ p d = true := by
          intro hx
          exact hkne (hname ▸ hp d hx)
        simp only [hpd]
        rw [ih v hnodup_rest hk]
        simp

theorem sum_indicator {α : Type} (p : α → Bool) :
    ∀ (l : List α), (l.map (fun x => if p x then 1 else 0)).sum = l.countP p := by
  intro l
  induction l with
  | nil => rfl
  | cons a rest ih =>
    rw [List.map_cons, List.sum_cons, ih, List.countP_cons]
    by_cases h : p a
    · simp [h, Nat.add_comm]
    · simp [h]

/-! ## demeIndices invariant -/

theorem assocAppendIdx_get (m : List (String × List ℕ)) (k2 : String) (i : ℕ)
    (k : String) :
    assocGet (assocAppendIdx m k2 i) k =
      if k = k2 then some (((assocGet m k2).getD []) ++ [i]) else assocGet m k := by
  unfold assocAppendIdx
  cases h : assocGet m k2 with
  | none =>
    have hset : m ++ [(k2, [i])] = assocSet m k2 [i] := by
      unfold assocSet
      rw [if_neg]
      intro hx
      rcases Option.isSome_iff_exists.1 hx with ⟨kv, hkv⟩
      unfold assocGet at h
      rw [hkv] at h
      simp at h
    rw [hset, assocGet_set]
    by_cases hk : k = k2
    · rw [if_pos hk, if_pos hk]
      rfl
    · rw [if_neg hk, if_neg hk]
  | some l =>
    rw [assocGet_set]
    by_cases hk : k = k2
    · rw [if_pos hk, if_pos hk]
      rfl
    · rw [if_neg hk, if_neg hk]

/-- The demeIndices bookkeeping of one step: the entry of a name grows
exactly when a deme record of that name is pushed. -/
theorem demeStep_inv (env : MapCollab) (geo : List (String × (ℚ × ℚ)))
    (offset : ℚ) (k : String) (acc : DemeAcc)
    (kv : String × List (String × ℕ))
    (h1 : ((assocGet acc.demeIndices k).getD []).length =
      acc.demeData.countP (fun d => d.name == k))
    (h2 : (assocGet acc.demeIndices k = none) ↔
      acc.demeData.countP (fun d => d.name == k) = 0) :
    (((assocGet (demeStep env geo offset acc kv).demeIndices k).getD []).length =
      (demeStep env geo offset acc kv).demeData.countP (fun d => d.name == k)) ∧
    ((assocGet (demeStep env geo offset acc kv).demeIndices k = none) ↔
      (demeStep env geo offset acc kv).demeData.countP (fun d => d.name == k) = 0) := by
  unfold demeStep
  by_cases hg : demeGood geo offset kv.1
  · rw [if_pos hg]
    dsimp only
    rw [List.countP_append, assocAppendIdx_get]
    have hrec : (demeRecFor env geo offset kv).name = kv.1 := rfl
    by_cases hkk : k = kv.1
    · rw [if_pos hkk]
      have hcnt : ([demeRecFor env geo offset kv]).countP (fun d => d.name == k) = 1 := by
        simp [List.countP_cons, hrec, hkk]
      rw [hcnt]
      constructor
      · rw [Option.getD_some, List.length_append, ← hkk, h1]
        rfl
      · constructor
        · intro hx; cases hx
        · intro hx; omega
    · rw [if_neg hkk]
      have hcnt : ([demeRecFor env geo offset kv]).countP (fun d => d.name == k) = 0 := by
        have : ¬ (kv.1 == k) := by simpa using fun hx => hkk hx.symm
        simp [List.countP_cons, hrec, this]
      rw [hcnt]
      exact ⟨by rw [h1]; omega, by rw [Nat.add_zero]; exact h2⟩
  · rw [if_neg hg]
    exact ⟨h1, h2⟩

theorem foldl_demeStep_inv (env : MapCollab) (geo : List (String × (ℚ × ℚ)))
    (offset : ℚ) (k : String) (dm : List (String × List (String × ℕ))) :
    ∀ (acc : DemeAcc),
      (((assocGet acc.demeIndices k).getD []).length =
        acc.demeData.countP (fun d => d.name == k)) →
      ((assocGet acc.demeIndices k = none) ↔
        acc.demeData.countP (fun d => d.name == k) = 0) →
      ((((assocGet (dm.foldl (demeStep env geo offset) acc).demeIndices k).getD []).length =
        (dm.foldl (demeStep env geo offset) acc).demeData.countP (fun d => d.name == k)) ∧
      ((assocGet (dm.foldl (demeStep env geo offset) acc).demeIndices k = none) ↔
        (dm.foldl (demeStep env geo offset) acc).demeData.countP (fun d => d.name == k) = 0)) := by
  induction dm with
  | nil => intro acc h1 h2; exact ⟨h1, h2⟩
  | cons kv rest ih =>
    intro acc h1 h2
    rw [List.foldl_cons]
    have := demeStep_inv env geo offset k acc kv h1 h2
    exact ih _ this.1 this.2

theorem offsets_demeStep_inv (env : MapCollab) (geo : List (String × (ℚ × ℚ)))
    (k : String) (dm : List (String × List (String × ℕ))) :
    ∀ (offsets : List ℚ) (acc : DemeAcc),
      (((assocGet acc.demeIndices k).getD []).length =
        acc.demeData.countP (fun d => d.name == k)) →
      ((assocGet acc.demeIndices k = none) ↔
        acc.demeData.countP (fun d => d.name == k) = 0) →
      (let res := offsets.foldl (fun a o => dm.foldl (demeStep env geo o) a) acc
       (((assocGet res.demeIndices k).getD []).length =
         res.demeData.countP (fun d => d.name == k)) ∧
       ((assocGet res.demeIndices k = none) ↔
         res.demeData.countP (fun d => d.name == k) = 0)) := by
  intro offsets
  induction offsets with
  | nil => intro acc h1 h2; exact ⟨h1, h2⟩
  | cons o rest ih =>
    intro acc h1 h2
    dsimp only
    rw [List.foldl_cons]
    have := foldl_demeStep_inv env geo o k dm acc h1 h2
    exact ih _ this.1 this.2

theorem demeGood_of_part (env : MapCollab) (geo : List (String × (ℚ × ℚ)))
    (offset : ℚ) (kv : String × List (String × ℕ)) (d : DemeRec)
    (h : demePart env geo offset kv = some d) : demeGood geo offset kv.1 = true := by
  unfold demePart at h
  by_cases hg : demeGood geo offset kv.1
  · exact hg
  · rw [if_neg hg] at h; cases h

theorem demeGood_isSome (geo : List (String × (ℚ × ℚ))) (offset : ℚ)
    (k : String) (h : demeGood geo offset k = true) :
    (assocGet geo k).isSome := by
  unfold demeGood demeGeoInfo at h
  cases hg : assocGet geo k with
  | none => rw [hg] at h; simp at h
  | some z => simp

theorem demeGood_band (geo : List (String × (ℚ × ℚ))) (offset : ℚ) (k : String)
    (la lo : ℚ) (hgeo : assocGet geo k = some (la, lo)) :
    demeGood geo offset k =
      (decide (lo + offset > westBound) && decide (lo + offset < eastBound)) := by
  unfold demeGood demeGeoInfo
  rw [hgeo]
  simp

theorem demeRecFor_longitude (env : MapCollab) (geo : List (String × (ℚ × ℚ)))
    (offset : ℚ) (k : String) (v : List (String × ℕ)) (la lo : ℚ)
    (hgeo : assocGet geo k = some (la, lo)) :
    (demeRecFor env geo offset (k, v)).longitude = lo + offset := by
  unfold demeRecFor demeGeoInfo
  rw [hgeo]

theorem offsetsOf_nodup (triplicate : Bool) : (offsetsOf triplicate).Nodup := by
  cases triplicate
  · simp [offsetsOf]
  · simp [offsetsOf]
    norm_num

theorem length_flatMap_sum {α β : Type} (f : α → List β) :
    ∀ (l : List α), (l.flatMap f).length = (l.map (fun a => (f a).length)).sum := by
  intro l
  induction l with
  | nil => rfl
  | cons a rest ih =>
    rw [List.flatMap_cons, List.length_append, ih, List.map_cons, List.sum_cons]

theorem sum_map_const {α : Type} (c : ℕ) :
    ∀ (l : List α), (l.map (fun _ => c)).sum = l.length * c := by
  intro l
  induction l with
  | nil => simp
  | cons a rest ih =>
    rw [List.map_cons, List.sum_cons, ih, List.length_cons]
    ring

theorem arcsFor_length (env : MapCollab) (geo : List (String × (ℚ × ℚ)))
    (offset : ℚ) (kv : String × List (String × ℕ))
    (hpie : ∀ l, (env.pie l).length = l.length) :
    (arcsFor env geo offset kv).length = kv.2.length := by
  unfold arcsFor
  rw [List.length_map, List.length_zip, hpie, List.length_map, Nat.min_self]

/-! ## Identity of events and positional counting -/

theorem mkEventOpt_id (env : MapCollab) (node child : MapNode)
    (nodeColors : List String) (visibility : List ℕ) (offsetOrig offsetDest : ℚ)
    (extend : ℕ) (orig dest : Option (ℚ × ℚ)) (t : TransmissionRec)
    (h : mkEventOpt env node child nodeColors visibility offsetOrig offsetDest
      extend orig dest = some t) :
    t.id = edgeId (node, child) := by
  unfold mkEventOpt at h
  cases orig with
  | none => cases h
  | some lo =>
    cases dest with
    | none => cases h
    | some ld =>
      dsimp only at h
      cases hp : maybeGetTransmissionPair env lo.1 (lo.2 + offsetOrig) ld.1
          (ld.2 + offsetDest) with
      | none => rw [hp] at h; cases h
      | some pair =>
        rw [hp] at h
        dsimp only at h
        rw [← Option.some.inj h]
        rfl

theorem candList_id (env : MapCollab) (geo : List (String × (ℚ × ℚ)))
    (node child : MapNode) (nodeColors : List String) (visibility : List ℕ)
    (offsetOrig : ℚ) (ext : ℕ) (t : TransmissionRec)
    (h : t ∈ candList env geo node child nodeColors visibility offsetOrig ext) :
    t.id = edgeId (node, child) := by
  unfold candList at h
  rcases List.mem_filterMap.1 h with ⟨oD, _, hmk⟩
  exact mkEventOpt_id env node child nodeColors visibility offsetOrig oD ext _ _ t hmk

theorem edgeEvents_id (env : MapCollab) (geo : List (String × (ℚ × ℚ)))
    (nodeColors : List String) (visibility : List ℕ) (offsets : List ℚ)
    (e : MapNode × MapNode) (ext : ℕ) (t : TransmissionRec)
    (h : t ∈ edgeEvents env geo nodeColors visibility offsets e ext) :
    t.id = edgeId e := by
  rw [edgeEvents_eq] at h
  rcases List.mem_filterMap.1 h with ⟨o, _, hmin⟩
  have hmem := (jsMinBy_spec dxAbs _ t hmin).1
  exact candList_id env geo e.1 e.2 nodeColors visibility o ext t hmem

theorem countP_flatMap_single {β γ : Type} (g : β → List γ) (p : γ → Bool) :
    ∀ (L : List β) (i : ℕ) (x : β), L.get? i = some x →
      (∀ t ∈ g x, p t = true) →
      (∀ j y, L.get? j = some y → j ≠ i → ∀ t ∈ g y, p t = false) →
      (L.flatMap g).countP p = (g x).length := by
  intro L
  induction L with
  | nil => intro i x hx; cases hx
  | cons b rest ih =>
    intro i x hx hall hother
    rw [List.flatMap_cons, List.countP_append]
    cases i with
    | zero =>
      rw [List.get?_cons_zero] at hx
      have hbx : b = x := Option.some.inj hx
      subst hbx
      have h1 : (g b).countP p = (g b).length := List.countP_eq_length.2 hall
      have h2 : (rest.flatMap g).countP p = 0 := by
        rw [List.countP_eq_zero]
        intro t ht
        rcases List.mem_flatMap.1 ht with ⟨y, hy, hty⟩
        rcases List.mem_iff_get?.1 hy with ⟨j, hj⟩
        have := hother (j + 1) y (by rw [List.get?_cons_succ]; exact hj)
          (Nat.succ_ne_zero j) t hty
        simp [this]
      rw [h1, h2]
      omega
    | succ j =>
      rw [List.get?_cons_succ] at hx
      have h1 : (g b).countP p = 0 := by
        rw [List.countP_eq_zero]
        intro t ht
        have := hother 0 b (List.get?_cons_zero) ((Nat.succ_ne_zero j).symm) t ht
        simp [this]
      have h2 := ih j x hx hall
        (fun j2 y hy hne => hother (j2 + 1) y
          (by rw [List.get?_cons_succ]; exact hy)
          (fun hx2 => hne (Nat.succ.inj hx2)))
      rw [h1, h2, Nat.zero_add]

theorem pairwise_id_ne {l : List (MapNode × MapNode)}
    (hp : l.Pairwise (fun e1 e2 => edgeId e1 ≠ edgeId e2)) {i j : ℕ}
    {a b : MapNode × MapNode} (hi : l.get? i = some a) (hj : l.get? j = some b)
    (hij : i ≠ j) : edgeId a ≠ edgeId b := by
  rcases List.get?_eq_some.1 hi with ⟨hi2, ha⟩
  rcases List.get?_eq_some.1 hj with ⟨hj2, hb⟩
  have hpg := List.pairwise_iff_get.1 hp
  rcases Nat.lt_or_ge i j with hlt | hge
  · have h := hpg ⟨i, hi2⟩ ⟨j, hj2⟩ hlt
    rw [ha, hb] at h
    exact h
  · have hjlt : j < i := Nat.lt_of_le_of_ne hge (fun hx => hij hx.symm)
    have h := hpg ⟨j, hj2⟩ ⟨i, hi2⟩ hjlt
    rw [ha, hb] at h
    exact h.symm

/-- The edge stored at position i of the extend-annotated list is the edge at
position i of the plain edge list. -/
theorem extendsFrom_get?_fst (counts : List (String × ℕ))
    (es : List (MapNode × MapNode)) (i : ℕ) (p : (MapNode × MapNode) × ℕ)
    (hp : (extendsFrom counts es).get? i = some p) : es.get? i = some p.1 := by
  have hmap := extendsFrom_fst counts es
  have : es.get? i = ((extendsFrom counts es).map Prod.fst).get? i := by rw [hmap]
  rw [this, List.get?_map, hp]
  rfl

/-! ## Migrator helper lemmas -/

theorem assocGet_del {α : Type} (m : List (String × α)) (k k2 : String) :
    assocGet (assocDel m k) k2 = if k2 = k then none else assocGet m k2 := by
  induction m with
  | nil => by_cases h : k2 = k <;> simp [assocDel, assocGet, h]
  | cons a t ih =>
    unfold assocDel at ih ⊢
    rw [List.filter_cons]
    by_cases ha : a.1 = k
    · rw [if_neg (by simp [ha]), ih, assocGet_cons]
      by_cases h2 : k2 = k
      · rw [if_pos h2, if_pos h2]
      · rw [if_neg h2, if_neg h2,
          if_neg (by rw [ha]; simpa using fun hx => h2 hx.symm)]
    · rw [if_pos (by simpa using ha), assocGet_cons, assocGet_cons]
      by_cases hak2 : a.1 == k2
      · have h1 : a.1 = k2 := by simpa using hak2
        have h2 : ¬ k2 = k := by
          intro hx
          exact ha (h1.symm ▸ hx)
        rw [if_pos hak2, if_neg h2, if_pos hak2]
      · rw [if_neg hak2, ih, if_neg hak2]

theorem getp_set (p : List (String × JSVal)) (k : String) (v : JSVal)
    (k2 : String) :
    getp (assocSet p k v) k2 = if k2 = k then v else getp p k2 := by
  unfold getp
  rw [assocGet_set]
  by_cases h : k2 = k <;> simp [h]

theorem getp_del (p : List (String × JSVal)) (k k2 : String) :
    getp (assocDel p k) k2 = if k2 = k then .undef else getp p k2 := by
  unfold getp
  rw [assocGet_del]
  by_cases h : k2 = k <;> simp [h]

/-- Lookup through a filter that decides by key only. -/
theorem assocGet_keyfilter {α : Type} (fk : String → Bool)
    (m : List (String × α)) (k : String) :
    assocGet (m.filter (fun kv => fk kv.1)) k =
      if fk k then assocGet m k else none := by
  induction m with
  | nil => by_cases h : fk k <;> simp [assocGet, h]
  | cons a t ih =>
    rw [List.filter_cons]
    by_cases hfa : fk a.1
    · rw [if_pos (by simpa using hfa), assocGet_cons]
      by_cases hak : a.1 == k
      · have h1 : a.1 = k := by simpa using hak
        rw [if_pos hak, if_pos (h1 ▸ hfa), assocGet_cons, if_pos hak]
      · rw [if_neg hak, ih, assocGet_cons, if_neg hak]
    · rw [if_neg (by simpa using hfa), ih]
      by_cases hak : a.1 == k
      · have h1 : a.1 = k := by simpa using hak
        rw [if_neg (h1 ▸ hfa), if_neg (h1 ▸ hfa)]
      · rw [assocGet_cons, if_neg hak]

/-- Lookup through a key-preserving value map. -/
theorem assocGet_mapval {α β : Type} (g : String → α → β)
    (m : List (String × α)) (k : String) :
    assocGet (m.map (fun kv => (kv.1, g kv.1 kv.2))) k =
      (assocGet m k).map (g k) := by
  induction m with
  | nil => simp [assocGet]
  | cons a t ih =>
    rw [List.map_cons, assocGet_cons, assocGet_cons]
    by_cases hak : a.1 == k
    · have h1 : a.1 = k := by simpa using hak
      rw [if_pos hak, if_pos hak]
      subst h1
      rfl
    · rw [if_neg hak, if_neg hak, ih]

theorem rel_append {α β : Type} {r : α → β → Prop} :
    ∀ {l1 : List α} {l2 : List β} {u1 : List α} {u2 : List β},
      List.Forall₂ r l1 l2 → List.Forall₂ r u1 u2 →
      List.Forall₂ r (l1 ++ u1) (l2 ++ u2) := by
  intro l1 l2 u1 u2 h hu
  induction h with
  | nil => exact hu
  | cons hab _ ih => exact List.Forall₂.cons hab ih

theorem rel_get {α β : Type} {r : α → β → Prop} :
    ∀ {l1 : List α} {l2 : List β}, List.Forall₂ r l1 l2 →
      ∀ i a, l1.get? i = some a → ∃ b, l2.get? i = some b ∧ r a b := by
  intro l1 l2 h
  induction h with
  | nil => intro i a ha; simp at ha
  | cons hab htl ih =>
    intro i a ha
    cases i with
    | zero =>
      refine ⟨_, rfl, ?_⟩
      have : _ = a := Option.some.inj ha
      rw [← this]
      exact hab
    | succ j => exact ih j a ha

theorem rel_mem_right {α β : Type} {r : α → β → Prop} :
    ∀ {l1 : List α} {l2 : List β}, List.Forall₂ r l1 l2 →
      ∀ b ∈ l2, ∃ a ∈ l1, r a b := by
  intro l1 l2 h
  induction h with
  | nil => intro b hb; simp at hb
  | cons hab _ ih =>
    intro b hb
    rcases List.mem_cons.1 hb with hb | hb
    · exact ⟨_, List.mem_cons_self _ _, hb ▸ hab⟩
    · rcases ih b hb with ⟨a, ha, hr⟩
      exact ⟨a, List.mem_cons_of_mem _ ha, hr⟩

mutual

theorem treeMapM_ok (f : List (String × JSVal) → Except JSErr (List (String × JSVal)))
    (h : ∀ p, wfNode p = true → exOk (f p) = true) :
    ∀ t, wfTree t = true → exOk (treeMapM f t) = true
  | .node p kids, hw => by
    rw [wfTree, Bool.and_eq_true] at hw
    have h1 := h p hw.1
    have h2 := treeForestM_ok f h kids hw.2
    rw [treeMapM]
    cases hf : f p with
    | error e => rw [hf] at h1; exact absurd h1 (by simp [exOk])
    | ok q =>
      cases hc : treeMapChildrenM f kids with
      | error e => rw [hc] at h2; exact absurd h2 (by simp [exOk])
      | ok ks => rfl

theorem treeForestM_ok (f : List (String × JSVal) → Except JSErr (List (String × JSVal)))
    (h : ∀ p, wfNode p = true → exOk (f p) = true) :
    ∀ ts, wfForest ts = true → exOk (treeMapChildrenM f ts) = true
  | [], _ => rfl
  | t :: ts, hw => by
    rw [wfForest, Bool.and_eq_true] at hw
    have h1 := treeMapM_ok f h t hw.1
    have h2 := treeForestM_ok f h ts hw.2
    rw [treeMapChildrenM]
    cases hf : treeMapM f t with
    | error e => rw [hf] at h1; exact absurd h1 (by simp [exOk])
    | ok q =>
      cases hc : treeMapChildrenM f ts with
      | error e => rw [hc] at h2; exact absurd h2 (by simp [exOk])
      | ok ks => rfl

end

mutual

theorem treeMapM_nodes (f : List (String × JSVal) → Except JSErr (List (String × JSVal))) :
    ∀ t t2, treeMapM f t = .ok t2 →
      List.Forall₂ (fun p q => f p = .ok q) (allNodes t) (allNodes t2)
  | .node p kids, t2, h => by
    rw [treeMapM] at h
    cases hf : f p with
    | error e => rw [hf] at h; exact absurd h (by simp)
    | ok q =>
      rw [hf] at h
      cases hc : treeMapChildrenM f kids with
      | error e => rw [hc] at h; exact absurd h (by simp)
      | ok ks =>
        rw [hc] at h
        have ht2 : VTree.node q ks = t2 := Except.ok.inj h
        rw [← ht2, allNodes, allNodes]
        exact List.Forall₂.cons hf (treeForestM_nodes f kids ks hc)

theorem treeForestM_nodes (f : List (String × JSVal) → Except JSErr (List (String × JSVal))) :
    ∀ ts ts2, treeMapChildrenM f ts = .ok ts2 →
      List.Forall₂ (fun p q => f p = .ok q) (allNodesL ts) (allNodesL ts2)
  | [], ts2, h => by
    rw [treeMapChildrenM] at h
    have : ([] : List VTree) = ts2 := Except.ok.inj h
    rw [← this]
    exact List.Forall₂.nil
  | t :: ts, ts2, h => by
    rw [treeMapChildrenM] at h
    cases hf : treeMapM f t with
    | error e => rw [hf] at h; exact absurd h (by simp)
    | ok q =>
      rw [hf] at h
      cases hc : treeMapChildrenM f ts with
      | error e => rw [hc] at h; exact absurd h (by simp)
      | ok ks =>
        rw [hc] at h
        have ht2 : q :: ks = ts2 := Except.ok.inj h
        rw [← ht2, allNodesL, allNodesL]
        exact rel_append (treeMapM_nodes f t q hf) (treeForestM_nodes f ts ks hc)

end

theorem jsKeyStr_ok (v : JSVal) (h : jsKeySimple v = true) :
    exOk (jsKeyStr v) = true := by
  cases v with
  | jbool b => cases b <;> rfl
  | jnum q => exact absurd h (by simp [jsKeySimple])
  | jarr l => exact absurd h (by simp [jsKeySimple])
  | jobj l => exact absurd h (by simp [jsKeySimple])
  | _ => rfl

theorem coloringsEntry_ok (v : JSVal) (h : v.isObj = true) :
    exOk (coloringsEntry v) = true := by
  cases v with
  | jobj l => rfl
  | _ => exact absurd h (by simp [JSVal.isObj])

theorem coloringsLoop_ok (entries : List (String × JSVal))
    (h : ∀ kv ∈ entries, kv.2.isObj = true) :
    ∀ acc, exOk (coloringsLoop acc entries) = true := by
  induction entries with
  | nil => intro acc; rfl
  | cons kv rest ih =>
    intro acc
    rw [coloringsLoop]
    cases hce : coloringsEntry kv.2 with
    | error e =>
      have := coloringsEntry_ok kv.2 (h kv (List.mem_cons_self _ _))
      rw [hce] at this
      exact absurd this (by simp [exOk])
    | ok e => exact ih (fun kv2 hkv2 => h kv2 (List.mem_cons_of_mem _ hkv2)) _

theorem wfMeta_obj (v : JSVal) (h : wfMeta v = true) : ∃ m, v = .jobj m := by
  cases v with
  | jobj m => exact ⟨m, rfl⟩
  | _ => exact Bool.noConfusion h

theorem setColorings_ok (m : List (String × JSVal))
    (h : wfMeta (.jobj m) = true) :
    exOk (setColorings (.jobj m)) = true := by
  rw [wfMeta, Bool.and_eq_true] at h
  obtain ⟨hco, -⟩ := h
  rw [setColorings]
  cases hg : assocGet m "color_options" with
  | none => rw [hg] at hco; simp at hco
  | some co =>
    rw [hg] at hco
    cases co with
    | jobj col =>
      have : jsGet (.jobj m) "color_options" = .ok (.jobj col) := by
        rw [jsGet, getp, hg]
        rfl
      rw [this]
      exact coloringsLoop_ok col (by simpa [List.all_eq_true] using hco) []
    | _ => simp at hco

theorem setMisc_ok (v2 : List (String × JSVal)) (m : List (String × JSVal))
    (hm : wfMeta (.jobj m) = true) :
    exOk (setMiscMetaProperties v2 (.jobj m)) = true := by
  rw [wfMeta, Bool.and_eq_true] at hm
  obtain ⟨-, hf⟩ := hm
  rw [setMiscMetaProperties]
  simp only [getv]
  cases hfv : assocGet m "filters" with
  | none =>
    have : getp m "filters" = .undef := by rw [getp, hfv]; rfl
    rw [this]
    rfl
  | some v =>
    have hgv : getp m "filters" = v := by rw [getp, hfv]; rfl
    have hf2 : (!v.truthy || v.isArr) = true := by
      rw [hfv] at hf
      exact hf
    rw [hgv]
    by_cases hvt : v.truthy
    · rw [hvt] at hf2
      simp only [Bool.not_true, Bool.false_or] at hf2
      cases v with
      | jarr l => rw [if_pos hvt]; rfl
      | _ => exact absurd hf2 (by simp [JSVal.isArr])
    · rw [if_neg hvt]
      rfl

theorem prettyString_str_ok (s : String) (o : POpts) :
    exOk (prettyString (.jstr s) o) = true := by
  rw [prettyString]
  split <;> rfl

theorem authorCb_ok (ai : JSVal) (p : List (String × JSVal))
    (h : wfNode p = true) : exOk (authorCb ai p) = true := by
  have hau : (!((getp p "attr").truthy && (getv (getp p "attr") "authors").truthy)
      || (getv (getp p "attr") "authors").isStr) = true := by
    rw [wfNode, Bool.and_eq_true, Bool.and_eq_true] at h
    exact h.1.2
  simp only [authorCb]
  by_cases hg : ((getp p "attr").truthy && (getv (getp p "attr") "authors").truthy) = true
  · rw [if_pos hg]
    rw [hg] at hau
    simp only [Bool.not_true, Bool.false_or] at hau
    cases hv : getv (getp p "attr") "authors" with
    | jstr s =>
      have hks : jsKeyStr (.jstr s) = .ok s := rfl
      rw [hks]
      dsimp only
      by_cases hvi : (getv ai s).truthy = true
      · rw [if_pos hvi]
        cases hps : prettyString (.jstr s) defaultOpts with
        | error e =>
          have := prettyString_str_ok s defaultOpts
          rw [hps] at this
          exact absurd this (by simp [exOk])
        | ok pa => rfl
      · rw [if_neg hvi]
        rfl
    | undef => rw [hv] at hau; exact Bool.noConfusion hau
    | null => rw [hv] at hau; exact Bool.noConfusion hau
    | jbool b => rw [hv] at hau; exact Bool.noConfusion hau
    | jnum q => rw [hv] at hau; exact Bool.noConfusion hau
    | jarr l => rw [hv] at hau; exact Bool.noConfusion hau
    | jobj l => rw [hv] at hau; exact Bool.noConfusion hau
  · rw [if_neg hg]
    rfl

theorem vaccineCb1_ok (vc : JSVal) (p : List (String × JSVal))
    (h : wfNode p = true) : exOk (vaccineCb1 vc p) = true := by
  have hs : jsKeySimple (getp p "strain") = true := by
    rw [wfNode, Bool.and_eq_true, Bool.and_eq_true] at h
    exact h.1.1
  simp only [vaccineCb1]
  cases hk : jsKeyStr (getp p "strain") with
  | error e =>
    have := jsKeyStr_ok _ hs
    rw [hk] at this
    exact absurd this (by simp [exOk])
  | ok k =>
    dsimp only
    by_cases hc : (getv vc k).truthy = true
    · rw [if_pos hc]
      rfl
    · rw [if_neg hc]
      rfl

theorem amStrings_ok (es : List JSVal) (h : es.all JSVal.isStr = true) :
    exOk (amStrings es) = true := by
  induction es with
  | nil => rfl
  | cons v rest ih =>
    rw [List.all_cons, Bool.and_eq_true] at h
    cases v with
    | jstr s =>
      have hstep : amStrings (.jstr s :: rest) =
          match amStrings rest with
          | .error e => .error e
          | .ok r => .ok (s :: r) := rfl
      rw [hstep]
      cases hr : amStrings rest with
      | error e =>
        have := ih h.2
        rw [hr] at this
        exact absurd this (by simp [exOk])
      | ok r => rfl
    | _ => exact Bool.noConfusion h.1

theorem amEntry_ok (k : String) (v : JSVal)
    (h : (match v with | .jarr es => es.all JSVal.isStr | _ => false) = true) :
    exOk (amEntry (k, v)) = true := by
  cases v with
  | jarr es =>
    rw [amEntry]
    dsimp only
    by_cases hl : es.length = 0
    · rw [if_pos hl]
      rfl
    · rw [if_neg hl]
      cases hs : amStrings es with
      | error e =>
        have := amStrings_ok es h
        rw [hs] at this
        exact absurd this (by simp [exOk])
      | ok ss => rfl
  | _ => exact Bool.noConfusion h

theorem amLoop_ok (l : List (String × JSVal))
    (h : ∀ kv ∈ l,
      (match kv.2 with | .jarr es => es.all JSVal.isStr | _ => false) = true) :
    exOk (amLoop l) = true := by
  induction l with
  | nil => rfl
  | cons kv rest ih =>
    rw [amLoop]
    cases he : amEntry kv with
    | error e =>
      have h1 : exOk (amEntry kv) = true :=
        amEntry_ok kv.1 kv.2 (h kv (List.mem_cons_self _ _))
      rw [he] at h1
      exact absurd h1 (by simp [exOk])
    | ok o =>
      cases o with
      | none => exact ih (fun kv2 hkv2 => h kv2 (List.mem_cons_of_mem _ hkv2))
      | some str =>
        cases hr : amLoop rest with
        | error e =>
          have := ih (fun kv2 hkv2 => h kv2 (List.mem_cons_of_mem _ hkv2))
          rw [hr] at this
          exact absurd this (by simp [exOk])
        | ok r => rfl

theorem aaStage_ok (p : List (String × JSVal))
    (ham : (!(getp p "aa_muts").truthy ||
      (match getp p "aa_muts" with
       | .jobj l => l.all (fun kv =>
           match kv.2 with
           | .jarr es => es.all JSVal.isStr
           | _ => false)
       | _ => false)) = true) :
    exOk (aaStage p) = true := by
  simp only [aaStage]
  by_cases ht : (getp p "aa_muts").truthy = true
  · rw [if_pos ht]
    rw [ht] at ham
    simp only [Bool.not_true, Bool.false_or] at ham
    cases ha : getp p "aa_muts" with
    | jobj l =>
      rw [ha] at ham
      have hok : exOk (amLoop (ownEntries (.jobj l))) = true := by
        rw [show ownEntries (.jobj l) = l from rfl]
        exact amLoop_ok l (by simpa [List.all_eq_true] using ham)
      cases hml : amLoop (ownEntries (.jobj l)) with
      | error e =>
        rw [hml] at hok
        exact absurd hok (by simp [exOk])
      | ok muts =>
        dsimp only
        split
        · rfl
        · rfl
    | undef => rw [ha] at ham; exact Bool.noConfusion ham
    | null => rw [ha] at ham; exact Bool.noConfusion ham
    | jbool b => rw [ha] at ham; exact Bool.noConfusion ham
    | jnum q => rw [ha] at ham; exact Bool.noConfusion ham
    | jstr str => rw [ha] at ham; exact Bool.noConfusion ham
    | jarr l => rw [ha] at ham; exact Bool.noConfusion ham
  · rw [if_neg ht]
    rfl

theorem attrMove_get_ne (p : List (String × JSVal)) (k j : String)
    (hj1 : j ≠ k) (hj2 : j ≠ "attr") :
    assocGet (attrMove p k) j = assocGet p j := by
  simp only [attrMove]
  by_cases hg : (getv (getp p "attr") k).truthy = true
  · rw [if_pos hg, assocGet_set, if_neg hj1, assocGet_set, if_neg hj2]
  · rw [if_neg hg]

theorem labelsAssign_get_ne (p : List (String × JSVal)) (k : String) (v : JSVal)
    (j : String) (hj : j ≠ "labels") :
    assocGet (labelsAssign p k v) j = assocGet p j := by
  simp only [labelsAssign]
  by_cases hl : (getp p "labels").truthy = true
  · rw [if_pos hl]
    cases getp p "labels" <;> first | rfl | rw [assocGet_set, if_neg hj]
  · rw [if_neg hl, assocGet_set, if_neg hj]

theorem cladeStage_get_ne (p : List (String × JSVal)) (j : String)
    (hj1 : j ≠ "labels") (hj2 : j ≠ "attr") :
    assocGet (cladeStage p) j = assocGet p j := by
  simp only [cladeStage]
  split
  · rw [assocGet_set, if_neg hj2, labelsAssign_get_ne _ _ _ _ hj1]
  · rfl

theorem aaStage_shape (p q : List (String × JSVal)) (h : aaStage p = .ok q) :
    q = p ∨ ∃ s, q = labelsAssign p "aa" (.jstr s) := by
  simp only [aaStage] at h
  by_cases ht : (getp p "aa_muts").truthy = true
  · rw [if_pos ht] at h
    cases hml : amLoop (ownEntries (getp p "aa_muts")) with
    | error e => rw [hml] at h; exact absurd h (by simp)
    | ok muts =>
      rw [hml] at h
      dsimp only at h
      by_cases hl : muts.length ≠ 0
      · rw [if_pos hl] at h
        exact Or.inr ⟨_, (Except.ok.inj h).symm⟩
      · rw [if_neg hl] at h
        exact Or.inl (Except.ok.inj h).symm
  · rw [if_neg ht] at h
    exact Or.inl (Except.ok.inj h).symm

theorem aaStage_get_ne (p q : List (String × JSVal)) (h : aaStage p = .ok q)
    (j : String) (hj : j ≠ "labels") :
    assocGet q j = assocGet p j := by
  rcases aaStage_shape p q h with hq | ⟨s, hq⟩
  · rw [hq]
  · rw [hq, labelsAssign_get_ne _ _ _ _ hj]

theorem numDateStage_get_ne (p : List (String × JSVal)) (j : String)
    (hj1 : j ≠ "num_date") (hj2 : j ≠ "attr") :
    assocGet (numDateStage p) j = assocGet p j := by
  simp only [numDateStage]
  split
  · split
    · rw [assocGet_set, if_neg hj2, assocGet_set, if_neg hj1,
        assocGet_set, if_neg hj2, assocGet_set, if_neg hj1]
    · rw [assocGet_set, if_neg hj2, assocGet_set, if_neg hj1]
  · rfl

theorem divStage_get_ne (p : List (String × JSVal)) (j : String)
    (hj1 : j ≠ "div") (hj2 : j ≠ "attr") :
    assocGet (divStage p) j = assocGet p j := by
  simp only [divStage]
  split
  · rw [assocGet_set, if_neg hj2, assocGet_set, if_neg hj1]
  · rfl

theorem traitsStage_get_ne (p : List (String × JSVal)) (j : String)
    (hj : j ≠ "traits") :
    assocGet (traitsStage p) j = assocGet p j := by
  simp only [traitsStage]
  split
  · rw [assocGet_set, if_neg hj]
  · rfl

theorem mutsStage_get_ne (p : List (String × JSVal)) (j : String)
    (hj1 : j ≠ "mutations") (hj2 : j ≠ "muts") (hj3 : j ≠ "aa_muts") :
    assocGet (mutsStage p) j = assocGet p j := by
  simp only [mutsStage]
  split
  · rw [assocGet_del, if_neg hj3, assocGet_del, if_neg hj2, assocGet_set, if_neg hj1]
  · rfl

theorem pruneStage_get (p : List (String × JSVal)) (j : String)
    (hj : allowedProperties.contains j = true) :
    assocGet (pruneStage p) j = assocGet p j := by
  rw [pruneStage, assocGet_keyfilter, if_pos hj]

theorem storeCb_ok (p : List (String × JSVal)) (h : wfNode p = true) :
    exOk (storeCb p) = true := by
  have ham : (!(getp p "aa_muts").truthy ||
      (match getp p "aa_muts" with
       | .jobj l => l.all (fun kv =>
           match kv.2 with
           | .jarr es => es.all JSVal.isStr
           | _ => false)
       | _ => false)) = true := by
    rw [wfNode, Bool.and_eq_true, Bool.and_eq_true] at h
    exact h.2
  simp only [storeCb]
  by_cases hat : (getp p "attr").truthy = true
  · rw [if_pos hat]
    have hpres : getp (cladeStage (attrMove (attrMove (attrMove p "author")
        "accession") "url")) "aa_muts" = getp p "aa_muts" := by
      unfold getp
      rw [cladeStage_get_ne _ _ (by decide) (by decide),
        attrMove_get_ne _ _ _ (by decide) (by decide),
        attrMove_get_ne _ _ _ (by decide) (by decide),
        attrMove_get_ne _ _ _ (by decide) (by decide)]
    have hok : exOk (aaStage (cladeStage (attrMove (attrMove (attrMove p "author")
        "accession") "url"))) = true := by
      refine aaStage_ok _ ?_
      rw [hpres]
      exact ham
    cases haa : aaStage (cladeStage (attrMove (attrMove (attrMove p "author")
        "accession") "url")) with
    | error e =>
      rw [haa] at hok
      exact absurd hok (by simp [exOk])
    | ok c => rfl
  · rw [if_neg hat]
    rfl

theorem wfNode_parts (p : List (String × JSVal))
    (h1 : jsKeySimple (getp p "strain") = true)
    (h2 : (!((getp p "attr").truthy && (getv (getp p "attr") "authors").truthy)
      || (getv (getp p "attr") "authors").isStr) = true)
    (h3 : (!(getp p "aa_muts").truthy ||
      (match getp p "aa_muts" with
       | .jobj l => l.all (fun kv =>
           match kv.2 with
           | .jarr es => es.all JSVal.isStr
           | _ => false)
       | _ => false)) = true) :
    wfNode p = true := by
  rw [wfNode, Bool.and_eq_true, Bool.and_eq_true]
  exact ⟨⟨h1, h2⟩, h3⟩

theorem wfNode_split (p : List (String × JSVal)) (h : wfNode p = true) :
    jsKeySimple (getp p "strain") = true ∧
    (!((getp p "attr").truthy && (getv (getp p "attr") "authors").truthy)
      || (getv (getp p "attr") "authors").isStr) = true ∧
    (!(getp p "aa_muts").truthy ||
      (match getp p "aa_muts" with
       | .jobj l => l.all (fun kv =>
           match kv.2 with
           | .jarr es => es.all JSVal.isStr
           | _ => false)
       | _ => false)) = true := by
  rw [wfNode, Bool.and_eq_true, Bool.and_eq_true] at h
  exact ⟨h.1.1, h.1.2, h.2⟩

theorem wfNode_eq_of_lookups (p q : List (String × JSVal))
    (h1 : getp q "strain" = getp p "strain")
    (h2 : getp q "attr" = getp p "attr")
    (h3 : getp q "aa_muts" = getp p "aa_muts") :
    wfNode q = wfNode p := by
  rw [wfNode, wfNode, h1, h2, h3]

theorem authorCb_shape (ai : JSVal) (p q : List (String × JSVal))
    (h : authorCb ai p = .ok q) :
    q = p ∨ ∃ w, q = assocSet p "attr" w ∧ (getv w "authors").truthy = false := by
  simp only [authorCb] at h
  by_cases hg : ((getp p "attr").truthy && (getv (getp p "attr") "authors").truthy) = true
  · rw [if_pos hg] at h
    have hattr : ∃ a, getp p "attr" = .jobj a := by
      cases hA : getp p "attr" with
      | jobj a => exact ⟨a, rfl⟩
      | _ =>
        rw [hA] at hg
        simp [getv, JSVal.truthy] at hg
    obtain ⟨a, hA⟩ := hattr
    have hdel : (getv (delv (getp p "attr") "authors") "authors").truthy = false := by
      rw [hA]
      show (getp (assocDel a "authors") "authors").truthy = false
      rw [getp_del, if_pos rfl]
      rfl
    cases hk : jsKeyStr (getv (getp p "attr") "authors") with
    | error e => rw [hk] at h; exact absurd h (by simp)
    | ok k =>
      rw [hk] at h
      dsimp only at h
      by_cases hvi : (getv ai k).truthy = true
      · rw [if_pos hvi] at h
        cases hps : prettyString (getv (getp p "attr") "authors") defaultOpts with
        | error e => rw [hps] at h; exact absurd h (by simp)
        | ok pa =>
          rw [hps] at h
          refine Or.inr ⟨_, (Except.ok.inj h).symm, ?_⟩
          rw [hA]
          show (getp (assocSet (assocDel a "authors") "author" _) "authors").truthy = false
          rw [getp_set, if_neg (by decide), getp_del, if_pos rfl]
          rfl
      · rw [if_neg hvi] at h
        exact Or.inr ⟨_, (Except.ok.inj h).symm, hdel⟩
  · rw [if_neg hg] at h
    exact Or.inl (Except.ok.inj h).symm

theorem authorCb_wf (ai : JSVal) (p q : List (String × JSVal))
    (h : authorCb ai p = .ok q) (hw : wfNode p = true) : wfNode q = true := by
  obtain ⟨h1, h2, h3⟩ := wfNode_split p hw
  rcases authorCb_shape ai p q h with hq | ⟨w, hq, hw2⟩
  · rw [hq]
    exact hw
  · subst hq
    refine wfNode_parts _ ?_ ?_ ?_
    · rw [getp_set, if_neg (by decide)]
      exact h1
    · rw [getp_set, if_pos rfl, hw2]
      simp
    · rw [getp_set, if_neg (by decide)]
      exact h3

theorem vaccineCb1_shape (vc : JSVal) (p q : List (String × JSVal))
    (h : vaccineCb1 vc p = .ok q) :
    q = p ∨ ∃ w, q = assocSet p "vaccine" w := by
  simp only [vaccineCb1] at h
  cases hk : jsKeyStr (getp p "strain") with
  | error e => rw [hk] at h; exact absurd h (by simp)
  | ok k =>
    rw [hk] at h
    dsimp only at h
    by_cases hc : (getv vc k).truthy = true
    · rw [if_pos hc] at h
      exact Or.inr ⟨_, (Except.ok.inj h).symm⟩
    · rw [if_neg hc] at h
      exact Or.inl (Except.ok.inj h).symm

theorem vaccineCb2_shape (p : List (String × JSVal)) :
    vaccineCb2 p = p ∨ ∃ w, vaccineCb2 p = assocSet p "vaccine" w := by
  simp only [vaccineCb2]
  by_cases hs : (getp p "serum").truthy = true
  · rw [if_pos hs]
    by_cases hv : (getp p "vaccine").truthy = true
    · rw [if_pos hv]
      cases getp p "vaccine" with
      | jobj l => exact Or.inr ⟨_, rfl⟩
      | _ => exact Or.inl rfl
    · rw [if_neg hv]
      exact Or.inr ⟨_, rfl⟩
  · rw [if_neg hs]
    exact Or.inl rfl

theorem wf_of_vaccine_shape (p q : List (String × JSVal))
    (h : q = p ∨ ∃ w, q = assocSet p "vaccine" w) (hw : wfNode p = true) :
    wfNode q = true := by
  rcases h with hq | ⟨w, hq⟩
  · rw [hq]
    exact hw
  · subst hq
    rw [wfNode_eq_of_lookups p (assocSet p "vaccine" w)
      (by rw [getp_set, if_neg (by decide)])
      (by rw [getp_set, if_neg (by decide)])
      (by rw [getp_set, if_neg (by decide)])]
    exact hw

mutual

theorem treeMapM_wf (f : List (String × JSVal) → Except JSErr (List (String × JSVal)))
    (hf : ∀ p q, f p = .ok q → wfNode p = true → wfNode q = true) :
    ∀ t t2, treeMapM f t = .ok t2 → wfTree t = true → wfTree t2 = true
  | .node p kids, t2, h, hw => by
    rw [wfTree, Bool.and_eq_true] at hw
    rw [treeMapM] at h
    cases hfp : f p with
    | error e => rw [hfp] at h; exact absurd h (by simp)
    | ok q =>
      rw [hfp] at h
      cases hc : treeMapChildrenM f kids with
      | error e => rw [hc] at h; exact absurd h (by simp)
      | ok ks =>
        rw [hc] at h
        have ht2 : VTree.node q ks = t2 := Except.ok.inj h
        rw [← ht2, wfTree, Bool.and_eq_true]
        exact ⟨hf p q hfp hw.1, treeForestM_wf f hf kids ks hc hw.2⟩

theorem treeForestM_wf (f : List (String × JSVal) → Except JSErr (List (String × JSVal)))
    (hf : ∀ p q, f p = .ok q → wfNode p = true → wfNode q = true) :
    ∀ ts ts2, treeMapChildrenM f ts = .ok ts2 → wfForest ts = true → wfForest ts2 = true
  | [], ts2, h, _ => by
    rw [treeMapChildrenM] at h
    rw [← Except.ok.inj h]
    rfl
  | t :: ts, ts2, h, hw => by
    rw [wfForest, Bool.and_eq_true] at hw
    rw [treeMapChildrenM] at h
    cases hfp : treeMapM f t with
    | error e => rw [hfp] at h; exact absurd h (by simp)
    | ok q =>
      rw [hfp] at h
      cases hc : treeMapChildrenM f ts with
      | error e => rw [hc] at h; exact absurd h (by simp)
      | ok ks =>
        rw [hc] at h
        rw [← Except.ok.inj h, wfForest, Bool.and_eq_true]
        exact ⟨treeMapM_wf f hf t q hfp hw.1, treeForestM_wf f hf ts ks hc hw.2⟩

end

mutual

theorem treeMapM_total_ok (f : List (String × JSVal) → Except JSErr (List (String × JSVal)))
    (hf : ∀ p, exOk (f p) = true) :
    ∀ t, exOk (treeMapM f t) = true
  | .node p kids => by
    rw [treeMapM]
    cases hfp : f p with
    | error e =>
      have := hf p
      rw [hfp] at this
      exact absurd this (by simp [exOk])
    | ok q =>
      cases hc : treeMapChildrenM f kids with
      | error e =>
        have := treeForestM_total_ok f hf kids
        rw [hc] at this
        exact absurd this (by simp [exOk])
      | ok ks => rfl

theorem treeForestM_total_ok (f : List (String × JSVal) → Except JSErr (List (String × JSVal)))
    (hf : ∀ p, exOk (f p) = true) :
    ∀ ts, exOk (treeMapChildrenM f ts) = true
  | [] => rfl
  | t :: ts => by
    rw [treeMapChildrenM]
    cases hfp : treeMapM f t with
    | error e =>
      have := treeMapM_total_ok f hf t
      rw [hfp] at this
      exact absurd this (by simp [exOk])
    | ok q =>
      cases hc : treeMapChildrenM f ts with
      | error e =>
        have := treeForestM_total_ok f hf ts
        rw [hc] at this
        exact absurd this (by simp [exOk])
      | ok ks => rfl

end

theorem setMisc_meta_obj (v2 : List (String × JSVal)) (m : List (String × JSVal))
    (vm : List (String × JSVal) × JSVal)
    (h : setMiscMetaProperties v2 (.jobj m) = .ok vm) :
    ∃ m2, vm.2 = .jobj m2 ∧ ∀ j, j ≠ "defaults" → assocGet m2 j = assocGet m j := by
  simp only [setMiscMetaProperties] at h
  split at h
  · exact absurd h (by simp)
  · have hp := Except.ok.inj h
    by_cases hd : (getv (.jobj m) "defaults").truthy = true
    · rw [if_pos hd] at hp
      refine ⟨assocDel m "defaults", ?_, ?_⟩
      · rw [← hp]
        rfl
      · intro j hj
        rw [assocGet_del, if_neg hj]
    · rw [if_neg hd] at hp
      refine ⟨m, ?_, fun j hj => rfl⟩
      rw [← hp]

theorem setAuthorInfo_ok (m : List (String × JSVal)) (t : VTree)
    (ht : wfTree t = true) : exOk (setAuthorInfo (.jobj m) t) = true := by
  rw [setAuthorInfo]
  rw [show jsGet (.jobj m) "author_info" = .ok (getp m "author_info") from rfl]
  dsimp only
  by_cases hai : (getp m "author_info").truthy = true
  · rw [if_pos hai]
    exact treeMapM_ok _ (fun p hp => authorCb_ok _ p hp) t ht
  · rw [if_neg hai]
    rfl

theorem setAuthorInfo_wf (meta : JSVal) (t t1 : VTree)
    (h : setAuthorInfo meta t = .ok t1) (hw : wfTree t = true) : wfTree t1 = true := by
  rw [setAuthorInfo] at h
  cases hjg : jsGet meta "author_info" with
  | error e => rw [hjg] at h; exact absurd h (by simp)
  | ok ai =>
    rw [hjg] at h
    dsimp only at h
    by_cases hai : ai.truthy = true
    · rw [if_pos hai] at h
      exact treeMapM_wf _ (authorCb_wf ai) t t1 h hw
    · rw [if_neg hai] at h
      rw [← Except.ok.inj h]
      exact hw

theorem setVaccine_ok (m : List (String × JSVal)) (t : VTree)
    (ht : wfTree t = true) : exOk (setVaccineChoicesOnNodes (.jobj m) t) = true := by
  rw [setVaccineChoicesOnNodes]
  rw [show jsGet (.jobj m) "vaccine_choices" = .ok (getp m "vaccine_choices") from rfl]
  dsimp only
  by_cases hvc : (getp m "vaccine_choices").truthy = true
  · rw [if_pos hvc]
    cases h1 : treeMapM (vaccineCb1 (getp m "vaccine_choices")) t with
    | error e =>
      have := treeMapM_ok (vaccineCb1 (getp m "vaccine_choices"))
        (fun p hp => vaccineCb1_ok _ p hp) t ht
      rw [h1] at this
      exact absurd this (by simp [exOk])
    | ok t1 =>
      dsimp only
      exact treeMapM_total_ok (fun p => .ok (vaccineCb2 p)) (fun p => rfl) t1
  · rw [if_neg hvc]
    dsimp only
    exact treeMapM_total_ok (fun p => .ok (vaccineCb2 p)) (fun p => rfl) t

theorem setVaccine_wf (meta : JSVal) (t t2 : VTree)
    (h : setVaccineChoicesOnNodes meta t = .ok t2) (hw : wfTree t = true) :
    wfTree t2 = true := by
  rw [setVaccineChoicesOnNodes] at h
  cases hjg : jsGet meta "vaccine_choices" with
  | error e => rw [hjg] at h; exact absurd h (by simp)
  | ok vc =>
    rw [hjg] at h
    dsimp only at h
    have hcb2 : ∀ p q, (fun p => (.ok (vaccineCb2 p) : Except JSErr (List (String × JSVal)))) p = .ok q →
        wfNode p = true → wfNode q = true := by
      intro p q hpq hwp
      have hq : vaccineCb2 p = q := Except.ok.inj hpq
      rw [← hq]
      exact wf_of_vaccine_shape p _ (vaccineCb2_shape p) hwp
    by_cases hvc : vc.truthy = true
    · rw [if_pos hvc] at h
      cases h1 : treeMapM (vaccineCb1 vc) t with
      | error e => rw [h1] at h; exact absurd h (by simp)
      | ok t1 =>
        rw [h1] at h
        dsimp only at h
        have hwt1 : wfTree t1 = true :=
          treeMapM_wf _ (fun p q hpq hwp =>
            wf_of_vaccine_shape p q (vaccineCb1_shape vc p q hpq) hwp) t t1 h1 hw
        exact treeMapM_wf _ hcb2 t1 t2 h hwt1
    · rw [if_neg hvc] at h
      dsimp only at h
      exact treeMapM_wf _ hcb2 t t2 h hw

theorem convertFromV1_parts (d : V1Doc) (out : V2Doc)
    (h : convertFromV1 d = .ok out) :
    ∃ colorings vm t1 t2,
      setColorings d.meta = .ok colorings ∧
      setMiscMetaProperties [("colorings", .jobj colorings)] d.meta = .ok vm ∧
      setAuthorInfo vm.2 d.tree = .ok t1 ∧
      setVaccineChoicesOnNodes vm.2 t1 = .ok t2 ∧
      treeMapM storeCb t2 = .ok out.tree ∧
      out.props = (if d.treeName.truthy then assocSet vm.1 "tree_name" d.treeName
        else vm.1) := by
  rw [convertFromV1] at h
  cases h1 : setColorings d.meta with
  | error e => rw [h1] at h; exact absurd h (by simp)
  | ok colorings =>
    rw [h1] at h
    dsimp only at h
    cases h2 : setMiscMetaProperties [("colorings", .jobj colorings)] d.meta with
    | error e => rw [h2] at h; exact absurd h (by simp)
    | ok vm =>
      rw [h2] at h
      dsimp only at h
      cases h3 : setAuthorInfo vm.2 d.tree with
      | error e => rw [h3] at h; exact absurd h (by simp)
      | ok t1 =>
        rw [h3] at h
        dsimp only at h
        cases h4 : setVaccineChoicesOnNodes vm.2 t1 with
        | error e => rw [h4] at h; exact absurd h (by simp)
        | ok t2 =>
          rw [h4] at h
          dsimp only at h
          cases h5 : treeMapM storeCb t2 with
          | error e => rw [h5] at h; exact absurd h (by simp)
          | ok t3 =>
            rw [h5] at h
            dsimp only at h
            have hout := Except.ok.inj h
            refine ⟨colorings, vm, t1, t2, rfl, h2, h3, h4, ?_, ?_⟩
            · rw [← hout]
              exact h5
            · rw [← hout]

theorem assocGet_mapval2 {α β : Type} (g : String × α → β)
    (m : List (String × α)) (k : String) :
    assocGet (m.map (fun kv => (kv.1, g kv))) k =
      (assocGet m k).map (fun v => g (k, v)) := by
  induction m with
  | nil => simp [assocGet]
  | cons a t ih =>
    rw [List.map_cons, assocGet_cons, assocGet_cons]
    by_cases hak : a.1 == k
    · have h1 : a.1 = k := by simpa using hak
      rw [if_pos hak, if_pos hak]
      subst h1
      rfl
    · rw [if_neg hak, if_neg hak, ih]

theorem rel_comp {α β γ : Type} {r : α → β → Prop} {s : β → γ → Prop} :
    ∀ {l1 : List α} {l2 : List β} {l3 : List γ},
      List.Forall₂ r l1 l2 → List.Forall₂ s l2 l3 →
      List.Forall₂ (fun a c => ∃ b, r a b ∧ s b c) l1 l3 := by
  intro l1 l2 l3 h
  induction h generalizing l3 with
  | nil =>
    intro h2
    cases h2
    exact .nil
  | cons hab htl ih =>
    intro h2
    cases h2 with
    | cons hbc htl2 => exact .cons ⟨_, hab, hbc⟩ (ih htl2)

theorem attrMove_attr (p : List (String × JSVal)) (k : String)
    (a : List (String × JSVal)) (hk : k ≠ "attr")
    (ha : assocGet p "attr" = some (.jobj a)) :
    ∃ a2, assocGet (attrMove p k) "attr" = some (.jobj a2) ∧
      ∀ j, j ≠ k → assocGet a2 j = assocGet a j := by
  have hgp : getp p "attr" = .jobj a := by rw [getp, ha]; rfl
  simp only [attrMove]
  rw [hgp]
  by_cases hg : (getv (.jobj a) k).truthy = true
  · rw [if_pos hg]
    refine ⟨assocDel a k, ?_, ?_⟩
    · rw [assocGet_set, if_neg (fun hx => hk hx.symm), assocGet_set, if_pos rfl]
      rfl
    · intro j hj
      rw [assocGet_del, if_neg hj]
  · rw [if_neg hg]
    exact ⟨a, ha, fun j hj => rfl⟩

theorem cladeStage_attr (p : List (String × JSVal))
    (a : List (String × JSVal))
    (ha : assocGet p "attr" = some (.jobj a)) :
    ∃ a2, assocGet (cladeStage p) "attr" = some (.jobj a2) ∧
      ∀ j, j ≠ "clade_name" → j ≠ "clade_annotation" →
        assocGet a2 j = assocGet a j := by
  have hgp : getp p "attr" = .jobj a := by rw [getp, ha]; rfl
  simp only [cladeStage]
  rw [hgp]
  by_cases hg : ((getv (.jobj a) "clade_name").truthy
      || (getv (.jobj a) "clade_annotation").truthy) = true
  · rw [if_pos hg]
    have hp1 : getp (labelsAssign p "clade"
        (jsOr (getv (.jobj a) "clade_annotation") (getv (.jobj a) "clade_name")))
          "attr" = .jobj a := by
      rw [getp, labelsAssign_get_ne _ _ _ _ (by decide), ha]
      rfl
    rw [hp1]
    refine ⟨assocDel (assocDel a "clade_name") "clade_annotation", ?_, ?_⟩
    · rw [assocGet_set, if_pos rfl]
      rfl
    · intro j hj1 hj2
      rw [assocGet_del, if_neg hj2, assocGet_del, if_neg hj1]
  · rw [if_neg hg]
    exact ⟨a, ha, fun j hj1 hj2 => rfl⟩

theorem numDateStage_attr (p : List (String × JSVal))
    (a : List (String × JSVal))
    (ha : assocGet p "attr" = some (.jobj a)) :
    ∃ a2, assocGet (numDateStage p) "attr" = some (.jobj a2) ∧
      ∀ j, j ≠ "num_date" → j ≠ "num_date_confidence" →
        assocGet a2 j = assocGet a j := by
  have hgp : getp p "attr" = .jobj a := by rw [getp, ha]; rfl
  simp only [numDateStage]
  rw [hgp]
  by_cases h1 : (getv (.jobj a) "num_date").truthy = true
  · rw [if_pos h1]
    have hattr1 : getp (assocSet (assocSet p "num_date"
        (.jobj [("value", getv (.jobj a) "num_date")])) "attr"
        (delv (.jobj a) "num_date")) "attr" = .jobj (assocDel a "num_date") := by
      rw [getp_set, if_pos rfl]
      rfl
    rw [hattr1]
    by_cases h2 : (getv (.jobj (assocDel a "num_date")) "num_date_confidence").truthy = true
    · rw [if_pos h2]
      refine ⟨assocDel (assocDel a "num_date") "num_date_confidence", ?_, ?_⟩
      · rw [assocGet_set, if_pos rfl]
        rfl
      · intro j hj1 hj2
        rw [assocGet_del, if_neg hj2, assocGet_del, if_neg hj1]
    · rw [if_neg h2]
      refine ⟨assocDel a "num_date", ?_, ?_⟩
      · rw [assocGet_set, if_pos rfl]
        rfl
      · intro j hj1 _
        rw [assocGet_del, if_neg hj1]
  · rw [if_neg h1]
    exact ⟨a, ha, fun j hj1 hj2 => rfl⟩

theorem divStage_attr (p : List (String × JSVal))
    (a : List (String × JSVal))
    (ha : assocGet p "attr" = some (.jobj a)) :
    ∃ a2, assocGet (divStage p) "attr" = some (.jobj a2) ∧
      ∀ j, j ≠ "div" → assocGet a2 j = assocGet a j := by
  have hgp : getp p "attr" = .jobj a := by rw [getp, ha]; rfl
  simp only [divStage]
  rw [hgp]
  by_cases hd : (!(getv (.jobj a) "div").isUndef) = true
  · rw [if_pos hd]
    refine ⟨assocDel a "div", ?_, ?_⟩
    · rw [assocGet_set, if_pos rfl]
      rfl
    · intro j hj
      rw [assocGet_del, if_neg hj]
  · rw [if_neg hd]
    exact ⟨a, ha, fun j hj => rfl⟩

theorem traitsStage_result (p : List (String × JSVal))
    (a : List (String × JSVal)) (v : String)
    (hattr : assocGet p "attr" = some (.jobj a))
    (hauth : assocGet a "authors" = some (.jstr v))
    (hnc : assocGet a "authors_confidence" = none)
    (hne : assocGet a "authors_entropy" = none) :
    ∃ ts, assocGet (traitsStage p) "traits" = some (.jobj ts) ∧
      assocGet ts "authors" = some (.jobj [("value", .jstr v)]) := by
  have hgp : getp p "attr" = .jobj a := by rw [getp, hattr]; rfl
  simp only [traitsStage]
  rw [hgp]
  rw [show ownEntries (.jobj a) = a from rfl]
  have hk : traitKeep "authors" = true := by decide
  have hget : assocGet (a.filter (fun kv => traitKeep kv.1)) "authors" =
      some (.jstr v) := by
    rw [assocGet_keyfilter, if_pos hk, hauth]
  have hne0 : (a.filter (fun kv => traitKeep kv.1)).length ≠ 0 := by
    intro h0
    rw [List.length_eq_zero] at h0
    rw [h0] at hget
    simp [assocGet] at hget
  rw [if_pos hne0]
  refine ⟨(a.filter (fun kv => traitKeep kv.1)).map
    (fun kv => (kv.1, .jobj (traitEntry (.jobj a) kv))), ?_, ?_⟩
  · rw [assocGet_set, if_pos rfl]
  · have hmv := assocGet_mapval2
      (fun kv => JSVal.jobj (traitEntry (.jobj a) kv))
      (a.filter (fun kv => traitKeep kv.1)) "authors"
    rw [hmv, hget]
    have hc : getv (.jobj a) ("authors" ++ "_confidence") = .undef := by
      show getp a "authors_confidence" = .undef
      rw [getp, hnc]
      rfl
    have he : getv (.jobj a) ("authors" ++ "_entropy") = .undef := by
      show getp a "authors_entropy" = .undef
      rw [getp, hne]
      rfl
    simp only [Option.map_some, traitEntry, hc, he]
    rfl

theorem storeCb_keys (p q : List (String × JSVal)) (h : storeCb p = .ok q) :
    ∀ kv ∈ q, allowedProperties.contains kv.1 = true := by
  simp only [storeCb] at h
  split at h
  · exact absurd h (by simp)
  · have hq := Except.ok.inj h
    intro kv hkv
    rw [← hq] at hkv
    rw [pruneStage] at hkv
    simpa using (List.mem_filter.1 hkv).2

theorem rel_imp {α β : Type} {r s : α → β → Prop}
    (hrs : ∀ a b, r a b → s a b) :
    ∀ {l1 : List α} {l2 : List β}, List.Forall₂ r l1 l2 → List.Forall₂ s l1 l2 := by
  intro l1 l2 h
  induction h with
  | nil => exact .nil
  | cons hab _ ih => exact .cons (hrs _ _ hab) ih

theorem vaccine_shape_pres (p q : List (String × JSVal))
    (h : q = p ∨ ∃ w, q = assocSet p "vaccine" w) :
    ∀ j, j ≠ "vaccine" → assocGet q j = assocGet p j := by
  intro j hj
  rcases h with hq | ⟨w, hq⟩
  · rw [hq]
  · rw [hq, assocGet_set, if_neg hj]

theorem vaccinePass_rel (meta : JSVal) (t t2 : VTree)
    (h : setVaccineChoicesOnNodes meta t = .ok t2) :
    List.Forall₂ (fun p q => ∀ j, j ≠ "vaccine" → assocGet q j = assocGet p j)
      (allNodes t) (allNodes t2) := by
  rw [setVaccineChoicesOnNodes] at h
  cases hjg : jsGet meta "vaccine_choices" with
  | error e => rw [hjg] at h; exact absurd h (by simp)
  | ok vc =>
    rw [hjg] at h
    dsimp only at h
    by_cases hvc : vc.truthy = true
    · rw [if_pos hvc] at h
      cases h1 : treeMapM (vaccineCb1 vc) t with
      | error e => rw [h1] at h; exact absurd h (by simp)
      | ok tmid =>
        rw [h1] at h
        dsimp only at h
        have r1 := treeMapM_nodes (vaccineCb1 vc) t tmid h1
        have r2 := treeMapM_nodes (fun p => .ok (vaccineCb2 p)) tmid t2 h
        refine rel_imp ?_ (rel_comp r1 r2)
        intro p q hpq
        obtain ⟨b, hb1, hb2⟩ := hpq
        intro j hj
        have hq : vaccineCb2 b = q := Except.ok.inj hb2
        rw [← hq, vaccine_shape_pres b _ (vaccineCb2_shape b) j hj,
          vaccine_shape_pres p b (vaccineCb1_shape vc p b hb1) j hj]
    · rw [if_neg hvc] at h
      dsimp only at h
      have r2 := treeMapM_nodes (fun p => .ok (vaccineCb2 p)) t t2 h
      refine rel_imp ?_ r2
      intro p q hpq j hj
      have hq : vaccineCb2 p = q := Except.ok.inj hpq
      rw [← hq, vaccine_shape_pres p _ (vaccineCb2_shape p) j hj]

theorem storeCb_authors_trait (p a : List (String × JSVal)) (v : String)
    (q : List (String × JSVal))
    (h : storeCb p = .ok q)
    (hattr : assocGet p "attr" = some (.jobj a))
    (hauth : assocGet a "authors" = some (.jstr v))
    (hnoauthor : assocGet a "author" = none)
    (hnc : assocGet a "authors_confidence" = none)
    (hne : assocGet a "authors_entropy" = none)
    (hnav : assocGet p "author" = none) :
    ∃ ts, assocGet q "traits" = some (.jobj ts) ∧
      assocGet ts "authors" = some (.jobj [("value", .jstr v)]) ∧
      assocGet q "author" = none := by
  have hgp : getp p "attr" = .jobj a := by rw [getp, hattr]; rfl
  have htr : (getp p "attr").truthy = true := by rw [hgp]; rfl
  simp only [storeCb] at h
  rw [if_pos htr] at h
  have hmv1 : attrMove p "author" = p := by
    simp only [attrMove]
    rw [hgp]
    have hu : getv (.jobj a) "author" = .undef := by
      show getp a "author" = .undef
      rw [getp, hnoauthor]
      rfl
    rw [hu]
    rw [if_neg (by decide)]
  rw [hmv1] at h
  obtain ⟨a1, hattr1, hpres1⟩ := attrMove_attr p "accession" a (by decide) hattr
  obtain ⟨a2, hattr2, hpres2⟩ :=
    attrMove_attr (attrMove p "accession") "url" a1 (by decide) hattr1
  have hauth2 : assocGet a2 "authors" = some (.jstr v) := by
    rw [hpres2 _ (by decide), hpres1 _ (by decide), hauth]
  have hnc2 : assocGet a2 "authors_confidence" = none := by
    rw [hpres2 _ (by decide), hpres1 _ (by decide), hnc]
  have hne2 : assocGet a2 "authors_entropy" = none := by
    rw [hpres2 _ (by decide), hpres1 _ (by decide), hne]
  have hnav2 : assocGet (attrMove (attrMove p "accession") "url") "author" = none := by
    rw [attrMove_get_ne _ _ _ (by decide) (by decide),
      attrMove_get_ne _ _ _ (by decide) (by decide), hnav]
  obtain ⟨a3, hattr3, hpres3⟩ :=
    cladeStage_attr (attrMove (attrMove p "accession") "url") a2 hattr2
  have hauth3 : assocGet a3 "authors" = some (.jstr v) := by
    rw [hpres3 _ (by decide) (by decide), hauth2]
  have hnc3 : assocGet a3 "authors_confidence" = none := by
    rw [hpres3 _ (by decide) (by decide), hnc2]
  have hne3 : assocGet a3 "authors_entropy" = none := by
    rw [hpres3 _ (by decide) (by decide), hne2]
  have hnav3 : assocGet (cladeStage (attrMove (attrMove p "accession") "url"))
      "author" = none := by
    rw [cladeStage_get_ne _ _ (by decide) (by decide), hnav2]
  cases haa : aaStage (cladeStage (attrMove (attrMove p "accession") "url")) with
  | error e => rw [haa] at h; exact absurd h (by simp)
  | ok c =>
    rw [haa] at h
    dsimp only at h
    have hq := Except.ok.inj h
    have hattr4 : assocGet c "attr" = some (.jobj a3) := by
      rw [aaStage_get_ne _ _ haa _ (by decide), hattr3]
    have hnav4 : assocGet c "author" = none := by
      rw [aaStage_get_ne _ _ haa _ (by decide), hnav3]
    obtain ⟨a4, hattr5, hpres5⟩ := numDateStage_attr c a3 hattr4
    have hnav5 : assocGet (numDateStage c) "author" = none := by
      rw [numDateStage_get_ne _ _ (by decide) (by decide), hnav4]
    obtain ⟨a5, hattr6, hpres6⟩ := divStage_attr (numDateStage c) a4 hattr5
    have hnav6 : assocGet (divStage (numDateStage c)) "author" = none := by
      rw [divStage_get_ne _ _ (by decide) (by decide), hnav5]
    have hauth5 : assocGet a5 "authors" = some (.jstr v) := by
      rw [hpres6 _ (by decide), hpres5 _ (by decide) (by decide), hauth3]
    have hnc5 : assocGet a5 "authors_confidence" = none := by
      rw [hpres6 _ (by decide), hpres5 _ (by decide) (by decide), hnc3]
    have hne5 : assocGet a5 "authors_entropy" = none := by
      rw [hpres6 _ (by decide), hpres5 _ (by decide) (by decide), hne3]
    obtain ⟨ts, hts, htsv⟩ :=
      traitsStage_result (divStage (numDateStage c)) a5 v hattr6 hauth5 hnc5 hne5
    refine ⟨ts, ?_, htsv, ?_⟩
    · rw [← hq, pruneStage_get _ _ (by decide),
        mutsStage_get_ne _ _ (by decide) (by decide) (by decide), hts]
    · rw [← hq, pruneStage_get _ _ (by decide),
        mutsStage_get_ne _ _ (by decide) (by decide) (by decide),
        traitsStage_get_ne _ _ (by decide), hnav6]

/-! ## Claim theorems -/

/-- C1: the claim states that updateTransmissionDataColAndVis (the
transmission half of the repatch pass) sets color and visible on every
record of every parent-to-child edge whose resolved locations differ.  In
the source, childLocation is resolved from node instead of child, so the
guard nodeLocation !== childLocation never holds and the function never
touches any record: the returned array equals its input for every possible
argument.  This theorem evaluates that behaviour (the claim itself fails on
any input whose color assignment or visibility mask changed). -/
theorem claim1_trans_update_is_noop (td : List TransmissionRec)
    (ti : List (String × List ℕ)) (nodes : List MapNode)
    (visibility : List ℕ) (nodeColors : List String) :
    updateTransmissionDataColAndVis td ti nodes visibility nodeColors = td := by
  unfold updateTransmissionDataColAndVis
  apply foldl_fixed
  intro td n
  cases n.children with
  | none => rfl
  | some cs =>
    apply foldl_fixed
    intro td child
    simp only [bne_self_eq_false, Bool.and_false, Bool.false_eq_true, if_false]

/-- C3 (amended): for every origin offset, a candidate is built for a
destination offset exactly when both lookups resolve, at least one of the two
offset-adjusted longitudes is greater than -360, at least one is less than
360, and their absolute difference is under 180 (the original claim required
both longitudes strictly inside the band, which the source does not);
among the candidates built, the first one whose absolute projected horizontal
separation is minimal is returned. -/
theorem claim3_candidate_condition_and_min (env : MapCollab)
    (geo : List (String × (ℚ × ℚ))) (node child : MapNode)
    (nodeColors : List String) (visibility : List ℕ) (offsetOrig : ℚ)
    (missing : List (Option String)) (ext : ℕ) :
    (∀ offsetDest : ℚ,
      (mkEventOpt env node child nodeColors visibility offsetOrig offsetDest ext
        (geoLookup geo node.location) (geoLookup geo child.location)).isSome ↔
      legalPair geo node child offsetOrig offsetDest)
    ∧ (maybeGetClosestTransmissionEvent env geo node child nodeColors visibility
        offsetOrig missing ext).1 =
      jsMinBy dxAbs (candList env geo node child nodeColors visibility offsetOrig ext)
    ∧ ∀ t, (maybeGetClosestTransmissionEvent env geo node child nodeColors
        visibility offsetOrig missing ext).1 = some t →
      t ∈ candList env geo node child nodeColors visibility offsetOrig ext ∧
      ∀ u ∈ candList env geo node child nodeColors visibility offsetOrig ext,
        dxAbs t ≤ dxAbs u := by
  refine ⟨?_, closest_fst env geo node child nodeColors visibility offsetOrig missing ext, ?_⟩
  · intro offsetDest
    unfold legalPair
    cases horig : geoLookup geo node.location with
    | none => simp [mkEventOpt, horig]
    | some lo =>
      cases hdest : geoLookup geo child.location with
      | none => simp [mkEventOpt, horig, hdest]
      | some ld =>
        unfold mkEventOpt maybeGetTransmissionPair
        by_cases hc : (lo.2 + offsetOrig > westBound ∨ ld.2 + offsetDest > westBound) ∧
            (lo.2 + offsetOrig < eastBound ∨ ld.2 + offsetDest < eastBound) ∧
            |lo.2 + offsetOrig - (ld.2 + offsetDest)| < 180
        · simp [hc]
        · simp [hc]
  · intro t ht
    rw [closest_fst] at ht
    exact jsMinBy_spec dxAbs _ t ht

section ClosedEvaluations

attribute [local semireducible] Rat.add Rat.sub Rat.mul Rat.inv Rat.ofScientific

/-- C3 counterexample: with the origin at longitude 10, the destination at
longitude -10 and origin offset +360, a candidate is built and returned whose
origin longitude 370 lies outside the open band (-360, 360), refuting the
claim that candidates are built exactly when both offset-adjusted longitudes
lie strictly inside the band. -/
theorem claim3_counterexample :
    ((maybeGetClosestTransmissionEvent cEnv c3Geo cRoot cTip ["r", "g"] [1, 1]
      360 [] 1).1.map (fun t => (t.originLongitude, t.destinationLongitude))) =
      some (370, 350) ∧ ¬ ((370 : ℚ) < eastBound) := by
  constructor
  · rfl
  · decide

/-- C8: prettyString("hello_world") with default options gives
"Hello World"; prettyString("usa") gives "USA"; prettyString(3.14159, with
empty options, which destructure to the defaults) gives the 5-significant-
digit string "3.1416"; and prettyString(0, with empty options) is the
15-decimal fixed-point print of zero, in particular not the empty string. -/
theorem claim8_prettyString_values :
    prettyString (.jstr "hello_world") defaultOpts = .ok (.jstr "Hello World") ∧
    prettyString (.jstr "usa") defaultOpts = .ok (.jstr "USA") ∧
    prettyString (.jnum (3.14159 : ℚ)) defaultOpts = .ok (.jstr "3.1416") ∧
    prettyString (.jnum 0) defaultOpts = .ok (.jstr "0.000000000000000") ∧
    prettyString (.jnum 0) defaultOpts ≠ .ok (.jstr "") := by
  refine ⟨rfl, rfl, rfl, rfl, ?_⟩
  intro h
  rw [show prettyString (.jnum 0) defaultOpts = .ok (.jstr "0.000000000000000")
    from rfl] at h
  have h2 := JSVal.jstr.inj (Except.ok.inj h)
  exact absurd h2 (by decide)

/-- C9: the repeat-edge counter of setupTransmissionData is keyed by the
comma-joined location strings, so the distinct ordered pairs
("a,b" to "c") and ("a" to "b,c") share one counter: their comma-joined keys
coincide and the two edges receive the consecutive extends 1 and 2 from the
common sequence. -/
theorem claim9_comma_key_collision :
    demeKey "a,b" "c" = demeKey "a" "b,c" ∧
    (("a,b" : String), ("c" : String)) ≠ ("a", "b,c") ∧
    ((setupTransmissionData cEnv c9Nodes [1, 1, 1, 1] ["r", "r", "r", "r"]
      false c9Geo).transmissionData.map
        (fun t => (t.originName, t.destinationName, t.extend))) =
      [(some "a,b", some "c", 1), (some "a", some "b,c", 2)] := by
  refine ⟨rfl, by decide, ?_⟩
  rfl

/-- C2 counterexample: with triplication, the single edge from longitude 180
to longitude 90 produces exactly 2 transmission records (origin offsets -360
and 0 qualify, +360 does not), so the claimed enumeration 0, 1 or 3 is
refuted. -/
theorem claim2_counterexample :
    ((setupTransmissionData cEnv cNodes [1, 1] ["red", "blue"] true
      cGeo).transmissionData.countP (fun t => t.id == "0-1")) = 2 ∧
    ¬ ((2 : ℕ) = 0 ∨ (2 : ℕ) = 1 ∨ (2 : ℕ) = 3) := by
  refine ⟨?_, by decide⟩
  rfl

/-- C7 counterexample: the edge from "x,x" to "x" and the edge from "x" to
"x,x" carry distinct ordered location pairs, yet the second edge (the first
occurrence of the ordered pair ("x", "x,x")) receives extend 2 instead of the
claimed running count 1, because the two pairs share the comma-joined key. -/
theorem claim7_counterexample :
    ((setupTransmissionData cEnv c7Nodes [1, 1, 1, 1] ["r", "r", "r", "r"]
      false c7Geo).transmissionData.map
        (fun t => (t.originName, t.destinationName, t.extend))) =
      [(some "x,x", some "x", 1), (some "x", some "x,x", 2)] ∧
    (("x,x" : String) ≠ "x") := by
  refine ⟨?_, by decide⟩
  rfl

end ClosedEvaluations

/-- C2 (amended): assuming the edge ids of the guarded edges are pairwise
distinct, the number of transmission records carrying the id of the edge at
position i equals the number of origin offsets (so 0 to 3 with triplication,
0 or 1 without) for which some candidate qualifies — exactly one record per
qualifying origin offset — and every record of that id is the closest
candidate of one origin offset: it belongs to that offset's candidate list
and its projected horizontal separation is minimal there.  (The original
claim stated the triplicated total is 0, 1 or 3; a total of 2 is reachable,
see the counterexample.) -/
theorem claim2_one_event_per_qualifying_offset (env : MapCollab)
    (nodes : List MapNode) (visibility : List ℕ) (nodeColors : List String)
    (triplicate : Bool) (geo : List (String × (ℚ × ℚ)))
    (hids : (flatEdges nodes).Pairwise (fun e1 e2 => edgeId e1 ≠ edgeId e2)) :
    ∀ (i : ℕ) (e : MapNode × MapNode) (ext : ℕ),
      (extendsFrom [] (flatEdges nodes)).get? i = some (e, ext) →
      ((setupTransmissionData env nodes visibility nodeColors triplicate geo).transmissionData.countP
          (fun t => t.id == edgeId e) =
        (offsetsOf triplicate).countP
          (fun o => ((maybeGetClosestTransmissionEvent env geo e.1 e.2 nodeColors
            visibility o [] ext).1).isSome))
      ∧ ∀ t ∈ (setupTransmissionData env nodes visibility nodeColors triplicate
            geo).transmissionData,
          t.id = edgeId e →
          ∃ o ∈ offsetsOf triplicate,
            (maybeGetClosestTransmissionEvent env geo e.1 e.2 nodeColors
              visibility o [] ext).1 = some t ∧
            t ∈ candList env geo e.1 e.2 nodeColors visibility o ext ∧
            ∀ u ∈ candList env geo e.1 e.2 nodeColors visibility o ext,
              dxAbs t ≤ dxAbs u := by
  intro i e ext hi
  have hdata := setupTransmissionData_data env nodes visibility nodeColors triplicate geo
  constructor
  · rw [hdata]
    have hlen := countP_flatMap_single
      (fun p => edgeEvents env geo nodeColors visibility (offsetsOf triplicate) p.1 p.2)
      (fun t => t.id == edgeId e) (extendsFrom [] (flatEdges nodes)) i (e, ext) hi
      (fun t ht => by
        have := edgeEvents_id env geo nodeColors visibility (offsetsOf triplicate)
          (e, ext).1 (e, ext).2 t ht
        simpa using this)
      (fun j p2 hj hne t ht => by
        have hid2 := edgeEvents_id env geo nodeColors visibility (offsetsOf triplicate)
          p2.1 p2.2 t ht
        have hE_j := extendsFrom_get?_fst [] (flatEdges nodes) j p2 hj
        have hE_i := extendsFrom_get?_fst [] (flatEdges nodes) i (e, ext) hi
        have hne_id : edgeId p2.1 ≠ edgeId (e, ext).1 :=
          pairwise_id_ne hids hE_j hE_i hne
        simp only [hid2]
        simpa using hne_id)
    rw [hlen]
    unfold edgeEvents
    exact length_filterMap_countP _ (offsetsOf triplicate)
  · intro t ht htid
    rw [hdata] at ht
    rcases List.mem_flatMap.1 ht with ⟨p2, hp2, htp2⟩
    rcases List.mem_iff_get?.1 hp2 with ⟨j, hj⟩
    have hp2e : p2 = (e, ext) := by
      by_cases hji : j = i
      · subst hji
        rw [hj] at hi
        exact Option.some.inj hi
      · exfalso
        have hid2 := edgeEvents_id env geo nodeColors visibility (offsetsOf triplicate)
          p2.1 p2.2 t htp2
        have hE_j := extendsFrom_get?_fst [] (flatEdges nodes) j p2 hj
        have hE_i := extendsFrom_get?_fst [] (flatEdges nodes) i (e, ext) hi
        exact pairwise_id_ne hids hE_j hE_i hji (by rw [← hid2, htid])
    subst hp2e
    unfold edgeEvents at htp2
    rcases List.mem_filterMap.1 htp2 with ⟨o, ho, hclosest⟩
    refine ⟨o, ho, hclosest, ?_⟩
    rw [closest_fst] at hclosest
    exact jsMinBy_spec dxAbs _ t hclosest

/-- C6: in setupDemeData, a bucket whose geographic entry is missing
contributes no deme record and no demeIndices entry at all; a bucket with
coordinates contributes exactly one deme record per offset whose adjusted
longitude lies strictly inside (-360, 360) (none for the other offsets, and
exclusion at one offset leaves the others untouched), with the demeIndices
entry of the bucket holding one position per good offset; and the ArcSector
records are emitted for every bucket at every offset regardless (their total
count is the number of offsets times the total color count). -/
theorem claim6_deme_exclusion_per_offset (env : MapCollab)
    (nodes : List MapNode) (visibility : List ℕ) (nodeColors : List String)
    (triplicate : Bool) (geo : List (String × (ℚ × ℚ))) (k : String)
    (v : List (String × ℕ))
    (hpie : ∀ l, (env.pie l).length = l.length)
    (hk : assocGet (getDemeColors nodes visibility nodeColors) k = some v) :
    (assocGet geo k = none →
      ((setupDemeData env nodes visibility nodeColors triplicate geo).demeData.countP
        (fun d => d.name == k) = 0 ∧
       assocGet (setupDemeData env nodes visibility nodeColors triplicate
         geo).demeIndices k = none))
    ∧ (∀ la lo : ℚ, assocGet geo k = some (la, lo) →
        ((setupDemeData env nodes visibility nodeColors triplicate geo).demeData.countP
            (fun d => d.name == k) =
          (offsetsOf triplicate).countP (fun o => demeGood geo o k))
        ∧ (((assocGet (setupDemeData env nodes visibility nodeColors triplicate
              geo).demeIndices k).getD []).length =
            (offsetsOf triplicate).countP (fun o => demeGood geo o k))
        ∧ ∀ o ∈ offsetsOf triplicate,
            (¬ (lo + o > westBound ∧ lo + o < eastBound) →
              (setupDemeData env nodes visibility nodeColors triplicate
                geo).demeData.countP
                  (fun d => d.name == k && d.longitude == lo + o) = 0)
            ∧ ((lo + o > westBound ∧ lo + o < eastBound) →
              (setupDemeData env nodes visibility nodeColors triplicate
                geo).demeData.countP
                  (fun d => d.name == k && d.longitude == lo + o) = 1))
    ∧ (setupDemeData env nodes visibility nodeColors triplicate geo).arcData.length =
        (offsetsOf triplicate).length *
          ((getDemeColors nodes visibility nodeColors).map
            (fun kv => kv.2.length)).sum := by
  have hnodup := getDemeColors_nodup_keys nodes visibility nodeColors
  have hdd : (setupDemeData env nodes visibility nodeColors triplicate
      geo).demeData =
      (offsetsOf triplicate).flatMap
        (fun o => (getDemeColors nodes visibility nodeColors).filterMap
          (demePart env geo o)) := by
    unfold setupDemeData
    dsimp only
    rw [offsets_demeData]
    rfl
  have harc : (setupDemeData env nodes visibility nodeColors triplicate
      geo).arcData =
      (offsetsOf triplicate).flatMap
        (fun o => (getDemeColors nodes visibility nodeColors).flatMap
          (arcsFor env geo o)) := by
    unfold setupDemeData
    dsimp only
    rw [offsets_arcData]
    rfl
  have hinv := offsets_demeStep_inv env geo k
    (getDemeColors nodes visibility nodeColors) (offsetsOf triplicate)
    ⟨[], [], [], 0⟩ rfl (by constructor <;> intro <;> rfl)
  dsimp only at hinv
  have hIdx : (setupDemeData env nodes visibility nodeColors triplicate
      geo).demeIndices =
      ((offsetsOf triplicate).foldl
        (fun a o => (getDemeColors nodes visibility nodeColors).foldl
          (demeStep env geo o) a) ⟨[], [], [], 0⟩).demeIndices := rfl
  have hDat : (setupDemeData env nodes visibility nodeColors triplicate
      geo).demeData =
      ((offsetsOf triplicate).foldl
        (fun a o => (getDemeColors nodes visibility nodeColors).foldl
          (demeStep env geo o) a) ⟨[], [], [], 0⟩).demeData := rfl
  refine ⟨?_, ?_, ?_⟩
  · intro hgeo
    have hzero : (setupDemeData env nodes visibility nodeColors triplicate
        geo).demeData.countP (fun d => d.name == k) = 0 := by
      rw [hdd, List.countP_eq_zero]
      intro d hd
      rcases List.mem_flatMap.1 hd with ⟨o, _, hdo⟩
      rcases List.mem_filterMap.1 hdo with ⟨kv, hkv, hpart⟩
      intro hpd
      have hname : d.name = kv.1 := demePart_name env geo o kv d hpart
      have hkvk : kv.1 = k := by
        rw [← hname]
        simpa using hpd
      have hgood := demeGood_of_part env geo o kv d hpart
      rw [hkvk] at hgood
      have := demeGood_isSome geo o k hgood
      rw [hgeo] at this
      cases this
    refine ⟨hzero, ?_⟩
    rw [hIdx]
    rw [hDat] at hzero
    exact hinv.2.2 hzero
  · intro la lo hgeo
    have hpname : ∀ d : DemeRec, (d.name == k) = true → d.name = k :=
      fun d h => by simpa using h
    have hB1 : (setupDemeData env nodes visibility nodeColors triplicate
        geo).demeData.countP (fun d => d.name == k) =
        (offsetsOf triplicate).countP (fun o => demeGood geo o k) := by
      rw [hdd, countP_flatMap]
      have hmap : (offsetsOf triplicate).map
          (fun o => ((getDemeColors nodes visibility nodeColors).filterMap
            (demePart env geo o)).countP (fun d => d.name == k)) =
          (offsetsOf triplicate).map
            (fun o => if demeGood geo o k then 1 else 0) := by
        apply List.map_congr_left
        intro o _
        rw [countP_demePart_key env geo o k _ hpname
          (getDemeColors nodes visibility nodeColors) v hnodup hk]
        have : ((demeRecFor env geo o (k, v)).name == k) = true := by simp [demeRecFor]
        rw [this, Bool.and_true]
      rw [hmap, sum_indicator]
    refine ⟨hB1, ?_, ?_⟩
    · rw [hIdx, hinv.1, ← hDat, hB1]
    · intro o ho
      have hper : ∀ o2 : ℚ,
          ((getDemeColors nodes visibility nodeColors).filterMap
            (demePart env geo o2)).countP
              (fun d => d.name == k && d.longitude == lo + o) =
          if demeGood geo o2 k && decide (lo + o2 = lo + o) then 1 else 0 := by
        intro o2
        have hpL : ∀ d : DemeRec,
            (d.name == k && d.longitude == lo + o) = true → d.name = k := by
          intro d h
          rw [Bool.and_eq_true] at h
          simpa using h.1
        rw [countP_demePart_key env geo o2 k _ hpL
          (getDemeColors nodes visibility nodeColors) v hnodup hk]
        have h1 : ((demeRecFor env geo o2 (k, v)).name == k) = true := by
          simp [demeRecFor]
        have h2 : ((demeRecFor env geo o2 (k, v)).longitude == lo + o) =
            decide (lo + o2 = lo + o) := by
          rw [demeRecFor_longitude env geo o2 k v la lo hgeo]
          rfl
        simp only [h1, Bool.true_and, h2]
      have hsum : (setupDemeData env nodes visibility nodeColors triplicate
          geo).demeData.countP (fun d => d.name == k && d.longitude == lo + o) =
          (offsetsOf triplicate).countP
            (fun o2 => demeGood geo o2 k && decide (lo + o2 = lo + o)) := by
        rw [hdd, countP_flatMap]
        have hmap : (offsetsOf triplicate).map
            (fun o2 => ((getDemeColors nodes visibility nodeColors).filterMap
              (demePart env geo o2)).countP
                (fun d => d.name == k && d.longitude == lo + o)) =
            (offsetsOf triplicate).map
              (fun o2 => if demeGood geo o2 k && decide (lo + o2 = lo + o)
                then 1 else 0) :=
          List.map_congr_left (fun o2 _ => hper o2)
        rw [hmap, sum_indicator]
      constructor
      · intro hband
        rw [hsum, List.countP_eq_zero]
        intro o2 _ hx
        rw [Bool.and_eq_true] at hx
        rcases hx with ⟨hg2, heq⟩
        have ho2 : o2 = o := by
          have : lo + o2 = lo + o := of_decide_eq_true heq
          linarith
        rw [ho2] at hg2
        rw [demeGood_band geo o k la lo hgeo] at hg2
        rw [Bool.and_eq_true] at hg2
        rcases hg2 with ⟨hw, he⟩
        exact hband ⟨of_decide_eq_true hw, of_decide_eq_true he⟩
      · intro hband
        rw [hsum]
        have hcong : (offsetsOf triplicate).countP
            (fun o2 => demeGood geo o2 k && decide (lo + o2 = lo + o)) =
            (offsetsOf triplicate).countP (fun o2 => o2 == o) := by
          apply List.countP_congr
          intro o2 _
          constructor
          · intro hx
            rw [Bool.and_eq_true] at hx
            rcases hx with ⟨_, heq⟩
            have : lo + o2 = lo + o := of_decide_eq_true heq
            have : o2 = o := by linarith
            simp [this]
          · intro hx
            have ho2 : o2 = o := by simpa using hx
            rw [ho2, demeGood_band geo o k la lo hgeo]
            simp [hband.1, hband.2]
        rw [hcong]
        rw [show (fun o2 : ℚ => o2 == o) = (· == o) from rfl]
        rw [← List.count]
        exact List.count_eq_one_of_mem (offsetsOf_nodup triplicate) ho
  · rw [harc, length_flatMap_sum]
    have hmap : (offsetsOf triplicate).map
        (fun o => ((getDemeColors nodes visibility nodeColors).flatMap
          (arcsFor env geo o)).length) =
        (offsetsOf triplicate).map
          (fun _ => ((getDemeColors nodes visibility nodeColors).map
            (fun kv => kv.2.length)).sum) := by
      apply List.map_congr_left
      intro o _
      rw [length_flatMap_sum]
      congr 1
      apply List.map_congr_left
      intro kv _
      exact arcsFor_length env geo o kv hpie
    rw [hmap, sum_map_const]

/-- C7 (amended): transmissionData is the concatenation over the guarded
edges of each edge's offset events, every offset variant of one edge carrying
the same extend; and provided no two distinct ordered location pairs collide
on the comma-joined key, the extend of the edge at position i is one plus the
number of earlier edges with the same ordered pair (so (A, B) is counted
independently of (B, A) and the running counts are 1, 2, 3, ... in first-seen
order). -/
theorem claim7_extend_running_pair_count (env : MapCollab)
    (nodes : List MapNode) (visibility : List ℕ) (nodeColors : List String)
    (triplicate : Bool) (geo : List (String × (ℚ × ℚ)))
    (hinj : keyInjOn (flatEdges nodes)) :
    (setupTransmissionData env nodes visibility nodeColors triplicate geo).transmissionData =
      (extendsFrom [] (flatEdges nodes)).flatMap
        (fun p => edgeEvents env geo nodeColors visibility (offsetsOf triplicate) p.1 p.2)
    ∧ ∀ (i : ℕ) (p : (MapNode × MapNode) × ℕ),
        (extendsFrom [] (flatEdges nodes)).get? i = some p →
        p.2 = 1 + ((flatEdges nodes).take i).countP (fun e2 => samePairB e2 p.1) := by
  constructor
  · exact setupTransmissionData_data env nodes visibility nodeColors triplicate geo
  · intro i p hp
    have h := extendsFrom_spec (flatEdges nodes) [] [] (by simpa using hinj)
      (fun k => by simp [lookupCount, assocGet]) i p hp
    simpa using h

/-- C4: counterexample — a legacy document whose meta object lacks
color_options makes convertFromV1 throw a TypeError in setColorings
(Object.entries of a nullish value), refuting the claim that no exception is
thrown for malformed input. -/
theorem claim4_counterexample :
    convertFromV1 ⟨VTree.node [] [], .jobj [], .undef⟩ = .error .typeError := rfl

/-- C4 (amended): on well-formed legacy documents — meta an object whose
color_options is an object of objects and whose filters, when truthy, is an
array, and every tree node with a key-coercible strain, a string
attr.authors when truthy, and object-of-string-array aa_muts when truthy —
convertFromV1 throws nothing and returns a document. -/
theorem claim4_no_throw_on_wf (d : V1Doc) (h : wfDoc d = true) :
    exOk (convertFromV1 d) = true := by
  obtain ⟨hm, ht⟩ : wfMeta d.meta = true ∧ wfTree d.tree = true := by
    rw [wfDoc, Bool.and_eq_true] at h
    exact h
  obtain ⟨m, hmeta⟩ := wfMeta_obj d.meta hm
  rw [convertFromV1]
  cases hc : setColorings d.meta with
  | error e =>
    have h1 := setColorings_ok m (by rw [← hmeta]; exact hm)
    rw [← hmeta, hc] at h1
    exact absurd h1 (by simp [exOk])
  | ok colorings =>
    dsimp only
    cases hmisc : setMiscMetaProperties [("colorings", .jobj colorings)] d.meta with
    | error e =>
      have h1 := setMisc_ok [("colorings", .jobj colorings)] m (by rw [← hmeta]; exact hm)
      rw [← hmeta, hmisc] at h1
      exact absurd h1 (by simp [exOk])
    | ok vm =>
      dsimp only
      obtain ⟨m2, hm2, -⟩ := setMisc_meta_obj [("colorings", .jobj colorings)] m vm
        (by rw [← hmeta]; exact hmisc)
      cases hai : setAuthorInfo vm.2 d.tree with
      | error e =>
        have h1 := setAuthorInfo_ok m2 d.tree ht
        rw [← hm2, hai] at h1
        exact absurd h1 (by simp [exOk])
      | ok t1 =>
        dsimp only
        have hwt1 : wfTree t1 = true := setAuthorInfo_wf vm.2 d.tree t1 hai ht
        cases hvc : setVaccineChoicesOnNodes vm.2 t1 with
        | error e =>
          have h1 := setVaccine_ok m2 t1 hwt1
          rw [← hm2, hvc] at h1
          exact absurd h1 (by simp [exOk])
        | ok t2 =>
          dsimp only
          have hwt2 : wfTree t2 = true := setVaccine_wf vm.2 t1 t2 hvc hwt1
          cases hst : treeMapM storeCb t2 with
          | error e =>
            have h1 := treeMapM_ok storeCb (fun p hp => storeCb_ok p hp) t2 hwt2
            rw [hst] at h1
            exact absurd h1 (by simp [exOk])
          | ok t3 => rfl

/-- C5: on every legacy document accepted by convertFromV1, every node of
the returned tree has all its own property keys on the fixed allow-list
(children is a structural field of the model and is itself on the
allow-list); everything else was deleted by the final prune. -/
theorem claim5_node_keys_allowlist (d : V1Doc) (out : V2Doc)
    (h : convertFromV1 d = .ok out) :
    ∀ p ∈ allNodes out.tree, ∀ kv ∈ p, allowedProperties.contains kv.1 = true := by
  obtain ⟨colorings, vm, t1, t2, -, -, -, -, h5, -⟩ := convertFromV1_parts d out h
  intro p hp kv hkv
  have hrel := treeMapM_nodes storeCb t2 out.tree h5
  obtain ⟨a, _, hfa⟩ := rel_mem_right hrel p hp
  exact storeCb_keys a p hfa kv hkv

/-- C10: when the legacy meta has no author_info, the author pass leaves
attr.authors in place, and the reshape turns it into traits.authors =
(value: the legacy string), with no top-level author key on the migrated
node (positionally the same node of the traversal order). -/
theorem claim10_authors_to_trait (d : V1Doc) (out : V2Doc)
    (m : List (String × JSVal)) (i : ℕ) (p a : List (String × JSVal)) (v : String)
    (hconv : convertFromV1 d = .ok out)
    (hmeta : d.meta = .jobj m)
    (hai : assocGet m "author_info" = none)
    (hp : (allNodes d.tree).get? i = some p)
    (hattr : assocGet p "attr" = some (.jobj a))
    (hauth : assocGet a "authors" = some (.jstr v))
    (hnoauthor : assocGet a "author" = none)
    (hnc : assocGet a "authors_confidence" = none)
    (hne : assocGet a "authors_entropy" = none)
    (hnav : assocGet p "author" = none) :
    ∃ q ts, (allNodes out.tree).get? i = some q ∧
      assocGet q "traits" = some (.jobj ts) ∧
      assocGet ts "authors" = some (.jobj [("value", .jstr v)]) ∧
      assocGet q "author" = none := by
  obtain ⟨colorings, vm, t1, t2, -, h2, h3, h4, h5, -⟩ := convertFromV1_parts d out hconv
  obtain ⟨m2, hm2, hm2pres⟩ := setMisc_meta_obj [("colorings", .jobj colorings)] m vm
    (by rw [← hmeta]; exact h2)
  have ht1 : t1 = d.tree := by
    rw [hm2] at h3
    rw [setAuthorInfo] at h3
    rw [show jsGet (.jobj m2) "author_info" = .ok (getp m2 "author_info") from rfl] at h3
    dsimp only at h3
    have hg : getp m2 "author_info" = .undef := by
      rw [getp, hm2pres "author_info" (by decide), hai]
      rfl
    rw [hg] at h3
    rw [if_neg (by decide)] at h3
    exact (Except.ok.inj h3).symm
  rw [ht1] at h4
  have hvrel := vaccinePass_rel vm.2 d.tree t2 h4
  obtain ⟨p2, hp2, hp2pres⟩ := rel_get hvrel i p hp
  have hrel3 := treeMapM_nodes storeCb t2 out.tree h5
  obtain ⟨q, hq, hfq⟩ := rel_get hrel3 i p2 hp2
  have hattr2 : assocGet p2 "attr" = some (.jobj a) := by
    rw [hp2pres "attr" (by decide), hattr]
  have hnav2 : assocGet p2 "author" = none := by
    rw [hp2pres "author" (by decide), hnav]
  obtain ⟨ts, hts, htsv, hqa⟩ :=
    storeCb_authors_trait p2 a v q hfq hattr2 hauth hnoauthor hnc hne hnav2
  exact ⟨q, ts, hq, hts, htsv, hqa⟩

section ClosedWitnesses

attribute [local semireducible] Rat.add Rat.sub Rat.mul Rat.inv Rat.ofScientific

/-- Witness for C2 at a concrete input: the pairwise-distinct-ids hypothesis
holds for the two-node tree and the per-offset record count follows. -/
theorem claim2_witness :
    (setupTransmissionData cEnv cNodes [1, 1] ["red", "blue"] true
        cGeo).transmissionData.countP (fun t => t.id == edgeId (cRoot, cTip)) =
      (offsetsOf true).countP
        (fun o => ((maybeGetClosestTransmissionEvent cEnv cGeo cRoot cTip
          ["red", "blue"] [1, 1] o [] 1).1).isSome) :=
  (claim2_one_event_per_qualifying_offset cEnv cNodes [1, 1] ["red", "blue"]
    true cGeo (by decide) 0 (cRoot, cTip) 1 rfl).1

/-- Witness for C6 at a concrete input: the single tip bucket "D" with
coordinates (0, 90) yields one deme record for each of the two in-band
origin offsets (-360 and 0) and none for +360, and three arc records (one
per offset, emitted regardless of the band check). -/
theorem claim6_witness :
    (setupDemeData cEnv cNodes [1, 1] ["red", "blue"] true cGeo).demeData.countP
        (fun d => d.name == "D") = 2
  ∧ (setupDemeData cEnv cNodes [1, 1] ["red", "blue"] true cGeo).arcData.length = 3 := by
  have h := claim6_deme_exclusion_per_offset cEnv cNodes [1, 1] ["red", "blue"]
    true cGeo "D" [("blue", 1)] (fun l => by simp [cEnv]) rfl
  refine ⟨?_, ?_⟩
  · rw [(h.2.1 0 90 rfl).1]
    rfl
  · rw [h.2.2]
    rfl

/-- Witness for C4 at a concrete input: a legacy document exercising the
colorings rename, the filters splice, the defaults move, the attr reshaping
and the mutations merge is well-formed and migrates without error. -/
theorem claim4_witness :
    wfDoc cMigDoc = true ∧ exOk (convertFromV1 cMigDoc) = true :=
  ⟨rfl, claim4_no_throw_on_wf cMigDoc rfl⟩

/-- Witness for C5 at a concrete input: the minimal document migrates to the
expected output, whose surviving node keys are on the allow-list. -/
theorem claim5_witness :
    convertFromV1 cMigSmall = .ok cMigSmallOut ∧
      allowedProperties.contains "strain" = true :=
  ⟨rfl, claim5_node_keys_allowlist cMigSmall cMigSmallOut rfl cMigSmallProps
    (List.mem_cons_self _ _) ("strain", .jstr "s") (List.mem_cons_self _ _)⟩

/-- Witness for C10 at a concrete input: with no author_info, the node
carrying attr.authors = "doe" migrates to traits.authors = (value: "doe")
with no top-level author key. -/
theorem claim10_witness :
    ∃ q ts, (allNodes cMigSmallOut.tree).get? 0 = some q ∧
      assocGet q "traits" = some (.jobj ts) ∧
      assocGet ts "authors" = some (.jobj [("value", .jstr "doe")]) ∧
      assocGet q "author" = none :=
  claim10_authors_to_trait cMigSmall cMigSmallOut [("color_options", .jobj [])]
    0 [("strain", .jstr "s"), ("junk", .jnum 1),
       ("attr", .jobj [("authors", .jstr "doe"), ("country", .jstr "fr")])]
    [("authors", .jstr "doe"), ("country", .jstr "fr")] "doe"
    rfl rfl rfl rfl rfl rfl rfl rfl rfl rfl

/-- Witness for C7 at a concrete input: the comma-joined keys of the two-node
tree are collision-free, and the characterisation holds there. -/
theorem claim7_witness :
    (setupTransmissionData cEnv cNodes [1, 1] ["red", "blue"] true cGeo).transmissionData =
      (extendsFrom [] (flatEdges cNodes)).flatMap
        (fun p => edgeEvents cEnv cGeo ["red", "blue"] [1, 1] (offsetsOf true) p.1 p.2) :=
  (claim7_extend_running_pair_count cEnv cNodes [1, 1] ["red", "blue"] true cGeo
    (by unfold keyInjOn; decide)).1

end ClosedWitnesses

end Auspice
